import Mathlib

/-!
Verification development for the AlphaSolve multi-agent workflow engine.

This file gives a shallow embedding, in Lean 4, of the parts of the
AlphaSolve code base that the specification talks about:

* the lemma store and `SharedContext.build_reasoning_path`
  (src/agents/shared_context.py);
* the Verifier node's exec/post logic (src/agents/verifier.py);
* the Solver node's lemma extraction and post logic
  (src/agents/solver.py, src/utils/utils.py);
* the LLM client's finish-reason check and retry loop (src/llms/utils.py);
* the Python tool runtime's timeout rollback and the proof anchor editor
  (src/llms/tools.py);
* the two refiner variants' post logic (src/agents/refiner.py,
  src/agents/with_history_refiner.py).

Python dictionaries holding lemma records are modelled by a Lean structure,
dictionary environments by association lists, machine integers by `Int`
and `Nat`, and code that raises exceptions by `Except`.
-/

/-! ## Python string primitives

Python's `in` operator and `str.find` are modelled on `List Char`.
-/

/-- Whether the character list `s` starts with `p` (Python slice equality
`s[:len(p)] == p`). -/
def listStartsWith : List Char → List Char → Bool
  | _, [] => true
  | [], _ :: _ => false
  | c :: cs, p :: ps => c = p && listStartsWith cs ps

/-- Model of Python `s.find(pat)` on character lists: index of the first
occurrence of `pat` in `s`, or `none` (Python returns `-1`). -/
def pyFindAux : List Char → List Char → Nat → Option Nat
  | s, pat, i =>
    if listStartsWith s pat then some i
    else
      match s with
      | [] => none
      | _ :: rest => pyFindAux rest pat (i + 1)

/-- First index of `pat` in `s`, Python `s.find(pat)`. -/
def pyFind (s pat : List Char) : Option Nat := pyFindAux s pat 0

/-- Python `s.find(pat, start)`: search only in `s[start:]`, reporting an
absolute index. -/
def pyFindFrom (s pat : List Char) (start : Nat) : Option Nat :=
  (pyFind (s.drop start) pat).map (· + start)

/-- Python `pat in s` (substring containment). -/
def pyIn (pat s : String) : Bool := (pyFind s.toList pat.toList).isSome

/-- Characters stripped by Python `str.strip()` with no arguments. -/
def pyIsSpace (c : Char) : Bool :=
  c = ' ' || c = '\t' || c = '\n' || c = '\x0d' || c = '\x0b' || c = '\x0c'

/-- Whether Python `s.strip()` is falsy, i.e. `s` is all whitespace. -/
def pyStripIsEmpty (s : String) : Bool := s.toList.all pyIsSpace

/-! ## Data model

`Lemma` records (src/agents/shared_context.py) are dictionaries; the fields
below are the keys the code reads and writes.  A dependency entry can be a
Python `int` or any other value (`build_reasoning_path` skips the latter),
so dependencies are lists of `Dep`.
-/

/-- One entry of a lemma's `dependencies` list: either a Python int or a
non-int value (tagged so distinct junk values stay distinct). -/
inductive Dep where
  | intD (n : Int)
  | nonIntD (tag : Nat)
deriving DecidableEq, Repr

/-- A chat message, as stored in `history_messages`. -/
structure Msg where
  role : String
  content : String
deriving DecidableEq, Repr

/-- Lemma record stored in `shared['lemmas']` (union of the keys used by
src/agents/shared_context.py, src/agents/solver.py and
src/agents/refiner.py). -/
structure LemmaM where
  statement : String
  proof : String
  dependencies : List Dep
  status : String
  review : Option String
  cot : Option String
  isTheorem : Bool
  verifyRound : Nat
  historyMessages : List Msg
  solverRoundRefunded : Bool
  applyDiffError : Option String
deriving DecidableEq, Repr

/-- The fixed-key shared state (src/agents/shared_context.py,
`SharedContext.FIXED_KEYS`). -/
structure SharedCtx where
  problem : String
  hint : Option String
  solverRoundRemaining : Int
  verifyRefineRoundRemaining : Int
  lemmas : List LemmaM
  currentLemmaId : Option Nat
  resultSummary : Option String
deriving DecidableEq, Repr

/-- Transition-action strings from src/config/agent_config.py
(`AlphaSolveConfig`). -/
def CONJECTURE_GENERATED : String := "conjecture_generated"

/-- Action returned by the verifier when the lemma is judged invalid. -/
def CONJECTURE_UNVERIFIED : String := "conjecture_unverified"

/-- Action returned by the verifier when a non-theorem lemma is verified. -/
def CONJECTURE_VERIFIED : String := "conjecture_verified"

/-- Action returned by the verifier when a theorem lemma is verified. -/
def DONE : String := "done"

/-- Action returned by the refiner after a successful refinement. -/
def REFINE_SUCCESS : String := "refined_success"

/-- Action returned by the legacy refiner when it judges the lemma wrong. -/
def CONJECTURE_WRONG : String := "conjecture_wrong"

/-- Action signalling quota exhaustion. -/
def EXIT_ON_EXAUSTED : String := "exit_on_exausted"

/-- Action signalling an internal error. -/
def EXIT_ON_ERROR : String := "exit_on_error"

/-- Internal status string `AlphaSolveConfig.NORMAL`. -/
def NORMAL : String := "normal"

/-- Internal status string `AlphaSolveConfig.VERIFIER_EXAUSTED`. -/
def VERIFIER_EXAUSTED : String := "verifier_exausted"

/-- Internal status string `AlphaSolveConfig.SOLVER_EXAUSTED`. -/
def SOLVER_EXAUSTED : String := "solver_exausted"

/-- Configuration constant `AlphaSolveConfig.VERIFIER_SCALING_FACTOR`. -/
def VERIFIER_SCALING_FACTOR : Nat := 15

/-- Configuration constant `AlphaSolveConfig.MAX_API_RETRY`, also the
`getattr` default used in `LLMClient.get_result`. -/
def MAX_API_RETRY : Nat := 8

/-! ## `SharedContext.build_reasoning_path` (src/agents/shared_context.py)

The DFS keeps a `seen` set and an `out` list; the inner `dfs(i)` iterates
over `lemmas[i].get("dependencies") or []`, skipping non-int entries,
out-of-range entries, entries `d >= i`, non-verified entries when
`verified_only`, and entries already seen; otherwise it marks the entry
seen, recurses and appends it to `out` (post-order).
-/

/-- The `status` field of `lemmas[i]` (Python `lemmas[i].get("status")`;
the call sites only evaluate it at in-range indices). -/
def statusAt (lemmas : List LemmaM) (i : Nat) : String :=
  ((lemmas.get? i).map LemmaM.status).getD ""

/-- The `dependencies` field of `lemmas[i]`
(Python `lemmas[i].get("dependencies") or []`). -/
def depsAt (lemmas : List LemmaM) (i : Nat) : List Dep :=
  ((lemmas.get? i).map LemmaM.dependencies).getD []

/-- State of the DFS in `build_reasoning_path`: the `seen` set and the
post-order output list. -/
structure DfsSt where
  seen : List Nat
  out : List Nat
deriving DecidableEq, Repr

/-- The guard under which `dfs` recurses into dependency entry `n` of
lemma `i`: mirrors the chain of `continue` filters in
`build_reasoning_path.dfs` (non-negative, in range, strictly earlier than
the listing lemma, verified when `verified_only`, not yet seen). -/
def depTakeable (lemmas : List LemmaM) (vo : Bool) (i : Nat) (n : Int)
    (seen : List Nat) : Prop :=
  0 ≤ n ∧ n < (lemmas.length : Int) ∧ n < (i : Int) ∧
    (vo = false ∨ statusAt lemmas n.toNat = "verified") ∧ n.toNat ∉ seen

instance (lemmas : List LemmaM) (vo : Bool) (i : Nat) (n : Int)
    (seen : List Nat) : Decidable (depTakeable lemmas vo i n seen) := by
  unfold depTakeable; infer_instance

/-- The recursive worker of `build_reasoning_path`: `dfsGo i deps st`
processes the remaining dependency entries `deps` of lemma `i`, starting
from DFS state `st`.  Termination: the recursion into a dependency uses a
strictly smaller lemma index, and the tail calls shorten `deps`. -/
def dfsGo (lemmas : List LemmaM) (vo : Bool) : Nat → List Dep → DfsSt → DfsSt
  | _, [], st => st
  | i, d :: rest, st =>
    match d with
    | .nonIntD _ => dfsGo lemmas vo i rest st
    | .intD n =>
      if hc : depTakeable lemmas vo i n st.seen then
        let d' := n.toNat
        let st1 := dfsGo lemmas vo d' (depsAt lemmas d')
          { st with seen := d' :: st.seen }
        dfsGo lemmas vo i rest { st1 with out := st1.out ++ [d'] }
      else dfsGo lemmas vo i rest st
termination_by i deps _ => (i, deps.length)
decreasing_by
  all_goals
    first
      | (apply Prod.Lex.right
         simp)
      | (apply Prod.Lex.left
         have h0 := hc.1
         have h2 := hc.2.2.1
         omega)

/-- Model of `SharedContext.build_reasoning_path(lemma_id, verified_only)`:
raises `IndexError` when `lemma_id` is out of range, otherwise runs the DFS
from an empty state and returns the output list. -/
def build_reasoning_path (lemmas : List LemmaM) (lemmaId : Int)
    (verifiedOnly : Bool) : Except String (List Nat) :=
  if lemmaId < 0 ∨ (lemmas.length : Int) ≤ lemmaId then
    .error "IndexError: lemma_id out of range"
  else
    .ok (dfsGo lemmas verifiedOnly lemmaId.toNat
      (depsAt lemmas lemmaId.toNat) ⟨[], []⟩).out

/-! ## Specification predicates for `build_reasoning_path` -/

/-- Dependency `d` of lemma `j` "survives the filter" of
`build_reasoning_path`: it is listed as an int entry of `j`'s
dependencies, is in range, is strictly smaller than `j`, and is verified
when `verified_only` is set. -/
def survives (lemmas : List LemmaM) (vo : Bool) (j d : Nat) : Prop :=
  Dep.intD (d : Int) ∈ depsAt lemmas j ∧ d < lemmas.length ∧ d < j ∧
    (vo = true → statusAt lemmas d = "verified")

instance (lemmas : List LemmaM) (vo : Bool) (j d : Nat) :
    Decidable (survives lemmas vo j d) := by
  unfold survives; infer_instance

/-- Transitive dependency relation generated by surviving edges: exactly
the nodes the DFS of `build_reasoning_path` can reach from `r`. -/
inductive reaches (lemmas : List LemmaM) (vo : Bool) (r : Nat) : Nat → Prop where
  | base {d : Nat} : survives lemmas vo r d → reaches lemmas vo r d
  | step {j d : Nat} : reaches lemmas vo r j → survives lemmas vo j d →
      reaches lemmas vo r d

/-- Every node reachable from `r` is in range, strictly below `r`, and
verified when `verified_only` is set. -/
theorem reaches_elim {lemmas : List LemmaM} {vo : Bool} {r x : Nat}
    (h : reaches lemmas vo r x) :
    x < lemmas.length ∧ x < r ∧ (vo = true → statusAt lemmas x = "verified") := by
  induction h with
  | base hs => exact ⟨hs.2.1, hs.2.2.1, hs.2.2.2⟩
  | step hr hs ih => exact ⟨hs.2.1, lt_trans hs.2.2.1 ih.2.1, hs.2.2.2⟩

/-- The DFS post-order property: every surviving dependency of the entry
at position `p` of `out` already occurs among the first `p` entries. -/
def SortedOut (lemmas : List LemmaM) (vo : Bool) (out : List Nat) : Prop :=
  ∀ (p : Nat) (hp : p < out.length) (d : Nat),
    survives lemmas vo (out.get ⟨p, hp⟩) d → d ∈ out.take p

/-- A post-ordered list is closed under surviving dependencies. -/
theorem SortedOut.closed {lemmas : List LemmaM} {vo : Bool} {out : List Nat}
    (h : SortedOut lemmas vo out) {j d : Nat} (hj : j ∈ out)
    (hs : survives lemmas vo j d) : d ∈ out := by
  obtain ⟨⟨p, hp⟩, rfl⟩ := List.mem_iff_get.mp hj
  exact List.take_subset _ _ (h p hp d hs)

/-- The empty output list is trivially post-ordered. -/
theorem SortedOut.nil {lemmas : List LemmaM} {vo : Bool} :
    SortedOut lemmas vo [] := by
  intro p hp
  simp at hp

/-- Appending a node whose surviving dependencies are already present
preserves the post-order property. -/
theorem SortedOut.snoc {lemmas : List LemmaM} {vo : Bool} {out : List Nat}
    {a : Nat} (h : SortedOut lemmas vo out)
    (ha : ∀ d, survives lemmas vo a d → d ∈ out) :
    SortedOut lemmas vo (out ++ [a]) := by
  intro p hp d hs
  rcases lt_or_ge p out.length with hlt | hge
  · have hget : (out ++ [a]).get ⟨p, hp⟩ = out.get ⟨p, hlt⟩ := by
      simp only [List.get_eq_getElem]
      exact List.getElem_append_left hlt
    rw [hget] at hs
    have := h p hlt d hs
    rw [List.take_append_of_le_length (le_of_lt hlt)]
    exact this
  · have hlen : p = out.length := by
      have := hp
      simp at this
      omega
    subst hlen
    have hget : (out ++ [a]).get ⟨out.length, hp⟩ = a := by
      simp
    rw [hget] at hs
    rw [List.take_append_of_le_length (le_refl _)]
    simpa using ha d hs

/-- Unfolding `dfsGo` on an empty dependency list. -/
theorem dfsGo_nil (lemmas : List LemmaM) (vo : Bool) (i : Nat) (st : DfsSt) :
    dfsGo lemmas vo i [] st = st := by
  simp [dfsGo]

/-- Unfolding `dfsGo` on a non-int dependency entry (skipped). -/
theorem dfsGo_nonint (lemmas : List LemmaM) (vo : Bool) (i t : Nat)
    (rest : List Dep) (st : DfsSt) :
    dfsGo lemmas vo i (.nonIntD t :: rest) st = dfsGo lemmas vo i rest st := by
  rw [dfsGo]

/-- Unfolding `dfsGo` on an int entry that passes all filters: mark seen,
recurse, append in post-order, continue. -/
theorem dfsGo_int_pos (lemmas : List LemmaM) (vo : Bool) (i : Nat) (n : Int)
    (rest : List Dep) (st : DfsSt) (hc : depTakeable lemmas vo i n st.seen) :
    dfsGo lemmas vo i (.intD n :: rest) st =
      dfsGo lemmas vo i rest
        ⟨(dfsGo lemmas vo n.toNat (depsAt lemmas n.toNat) ⟨n.toNat :: st.seen, st.out⟩).seen,
         (dfsGo lemmas vo n.toNat (depsAt lemmas n.toNat) ⟨n.toNat :: st.seen, st.out⟩).out ++ [n.toNat]⟩ := by
  rw [dfsGo]
  simp [hc]

/-- Unfolding `dfsGo` on an int entry that fails a filter (skipped). -/
theorem dfsGo_int_neg (lemmas : List LemmaM) (vo : Bool) (i : Nat) (n : Int)
    (rest : List Dep) (st : DfsSt) (hc : ¬ depTakeable lemmas vo i n st.seen) :
    dfsGo lemmas vo i (.intD n :: rest) st = dfsGo lemmas vo i rest st := by
  rw [dfsGo]
  simp [hc]

/-- Invariant carried by the DFS of `build_reasoning_path` while lemma `i`
is being expanded: the output is duplicate-free, output nodes are seen,
seen-but-unfinished nodes lie at or above the current lemma (they are the
recursion stack), and the output is post-ordered so far. -/
structure DfsInv (lemmas : List LemmaM) (vo : Bool) (i : Nat) (st : DfsSt) : Prop where
  nodup : st.out.Nodup
  outSeen : ∀ x ∈ st.out, x ∈ st.seen
  stack : ∀ x ∈ st.seen, x ∉ st.out → i ≤ x
  sorted : SortedOut lemmas vo st.out

/-- Relation between a DFS state `st` and the state `st'` obtained after
`dfsGo i deps st` has run, for a DFS rooted at `r`. -/
structure DfsRes (lemmas : List LemmaM) (vo : Bool) (r i : Nat)
    (deps : List Dep) (st st' : DfsSt) : Prop where
  seenMono : ∀ x ∈ st.seen, x ∈ st'.seen
  outExt : ∃ Δ, st'.out = st.out ++ Δ
  nodup : st'.out.Nodup
  outSeen : ∀ x ∈ st'.out, x ∈ st'.seen
  stackBack : ∀ x ∈ st'.seen, x ∉ st'.out → x ∈ st.seen ∧ x ∉ st.out
  newSeenOut : ∀ x ∈ st'.seen, x ∉ st.seen → x ∈ st'.out
  sorted : SortedOut lemmas vo st'.out
  newOut : ∀ x ∈ st'.out, x ∉ st.out → x ∉ st.seen ∧ reaches lemmas vo r x
  depsDone : ∀ n : Int, Dep.intD n ∈ deps → 0 ≤ n → n < (lemmas.length : Int) →
      n < (i : Int) → (vo = false ∨ statusAt lemmas n.toNat = "verified") →
      n.toNat ∈ st'.out

/-- Main invariant of the DFS worker: running `dfsGo` on a dependency
suffix of lemma `i` (with `i` reachable from the root `r`) extends the
state monotonically, keeps the output duplicate-free and post-ordered,
adds only nodes reachable from `r`, and completes every surviving
dependency entry it processes. -/
theorem dfsGo_main (lemmas : List LemmaM) (vo : Bool) (r : Nat) :
    ∀ (i : Nat) (deps : List Dep) (st : DfsSt),
      (∀ e ∈ deps, e ∈ depsAt lemmas i) →
      (i = r ∨ reaches lemmas vo r i) →
      DfsInv lemmas vo i st →
      DfsRes lemmas vo r i deps st (dfsGo lemmas vo i deps st) := by
  intro i
  induction i using Nat.strong_induction_on with
  | _ i IH =>
    intro deps
    induction deps with
    | nil =>
      intro st hdeps hroot hinv
      rw [dfsGo_nil]
      refine { seenMono := fun x hx => hx, outExt := ⟨[], by simp⟩,
               nodup := hinv.nodup, outSeen := hinv.outSeen,
               stackBack := fun x hx hnx => ⟨hx, hnx⟩,
               newSeenOut := fun x hx hnx => absurd hx hnx,
               sorted := hinv.sorted,
               newOut := fun x hx hnx => absurd hx hnx,
               depsDone := ?_ }
      intro n hn
      simp at hn
    | cons d rest IHrest =>
      intro st hdeps hroot hinv
      match d with
      | .nonIntD t =>
        rw [dfsGo_nonint]
        have hres := IHrest st (fun e he => hdeps e (List.mem_cons_of_mem _ he)) hroot hinv
        refine { seenMono := hres.seenMono, outExt := hres.outExt,
                 nodup := hres.nodup, outSeen := hres.outSeen,
                 stackBack := hres.stackBack, newSeenOut := hres.newSeenOut,
                 sorted := hres.sorted, newOut := hres.newOut, depsDone := ?_ }
        intro n hn h0 h1 h2 h3
        rcases List.mem_cons.mp hn with h | h
        · exact absurd h (by simp)
        · exact hres.depsDone n h h0 h1 h2 h3
      | .intD n =>
        by_cases hc : depTakeable lemmas vo i n st.seen
        · rw [dfsGo_int_pos lemmas vo i n rest st hc]
          obtain ⟨h0, h1, h2, h3, h4⟩ := hc
          set st' : DfsSt := ⟨n.toNat :: st.seen, st.out⟩ with hst'
          set st1 := dfsGo lemmas vo n.toNat (depsAt lemmas n.toNat) st' with hst1
          set st2 : DfsSt := ⟨st1.seen, st1.out ++ [n.toNat]⟩ with hst2
          have hdn : n.toNat < i := by omega
          have hlen : n.toNat < lemmas.length := by omega
          have hcast : ((n.toNat : Nat) : Int) = n := Int.toNat_of_nonneg h0
          have hsurv : survives lemmas vo i n.toNat := by
            refine ⟨?_, hlen, hdn, ?_⟩
            · rw [hcast]
              exact hdeps _ (List.mem_cons_self _ _)
            · intro hv
              rcases h3 with hf | hs
              · rw [hv] at hf
                cases hf
              · exact hs
          have hreach : reaches lemmas vo r n.toNat := by
            rcases hroot with rfl | hr
            · exact .base hsurv
            · exact .step hr hsurv
          have hinv' : DfsInv lemmas vo n.toNat st' := by
            refine { nodup := hinv.nodup,
                     outSeen := fun x hx => List.mem_cons_of_mem _ (hinv.outSeen x hx),
                     stack := ?_, sorted := hinv.sorted }
            intro x hx hnx
            rcases List.mem_cons.mp hx with rfl | hx'
            · exact le_refl _
            · have := hinv.stack x hx' hnx
              omega
          have hres1 : DfsRes lemmas vo r n.toNat (depsAt lemmas n.toNat) st' st1 :=
            IH n.toNat hdn (depsAt lemmas n.toNat) st' (fun e he => he)
              (Or.inr hreach) hinv'
          have hseen_sub1 : ∀ x ∈ st.seen, x ∈ st1.seen := fun x hx =>
            hres1.seenMono x (List.mem_cons_of_mem _ hx)
          have hd'seen1 : n.toNat ∈ st1.seen :=
            hres1.seenMono _ (List.mem_cons_self _ _)
          have hd'notout : n.toNat ∉ st1.out := by
            intro hmem
            by_cases hin : n.toNat ∈ st.out
            · exact h4 (hinv.outSeen _ hin)
            · have := (hres1.newOut _ hmem hin).1
              exact this (List.mem_cons_self _ _)
          have hout1ext : ∃ Δ, st1.out = st.out ++ Δ := hres1.outExt
          have hnodup2 : st2.out.Nodup := by
            rw [hst2]
            simp only [List.nodup_append, List.nodup_singleton]
            refine ⟨hres1.nodup, trivial, ?_⟩
            intro a ha hb
            simp at hb
            subst hb
            exact hd'notout ha
          have houtseen2 : ∀ x ∈ st2.out, x ∈ st2.seen := by
            intro x hx
            rcases List.mem_append.mp hx with hx1 | hx1
            · exact hres1.outSeen x hx1
            · simp at hx1
              subst hx1
              exact hd'seen1
          have hstack2 : ∀ x ∈ st2.seen, x ∉ st2.out → i ≤ x := by
            intro x hx hnx
            have hnx1 : x ∉ st1.out := fun h => hnx (List.mem_append_left _ h)
            have hback := hres1.stackBack x hx hnx1
            rcases List.mem_cons.mp hback.1 with rfl | hx'
            · exact absurd (List.mem_append_right _ (List.mem_singleton.mpr rfl)) hnx
            · exact hinv.stack x hx' hback.2
          have hsorted2 : SortedOut lemmas vo st2.out := by
            refine hres1.sorted.snoc ?_
            intro d hs
            have hdint : ((d : Int)).toNat = d := by omega
            have := hres1.depsDone (d : Int) hs.1
              (Int.natCast_nonneg d) (by exact_mod_cast hs.2.1) (by exact_mod_cast hs.2.2.1)
              (by
                cases vo with
                | false => exact Or.inl rfl
                | true => exact Or.inr (by rw [hdint]; exact hs.2.2.2 rfl))
            rwa [hdint] at this
          have hinv2 : DfsInv lemmas vo i st2 :=
            ⟨hnodup2, houtseen2, hstack2, hsorted2⟩
          have hres2 := IHrest st2 (fun e he => hdeps e (List.mem_cons_of_mem _ he))
            hroot hinv2
          obtain ⟨Δ2, hΔ2⟩ := hres2.outExt
          refine { seenMono := ?_, outExt := ?_, nodup := hres2.nodup,
                   outSeen := hres2.outSeen, stackBack := ?_,
                   newSeenOut := ?_, sorted := hres2.sorted,
                   newOut := ?_, depsDone := ?_ }
          · intro x hx
            exact hres2.seenMono x (hseen_sub1 x hx)
          · obtain ⟨Δ1, hΔ1⟩ := hout1ext
            exact ⟨Δ1 ++ [n.toNat] ++ Δ2, by
              rw [hΔ2, hst2, hΔ1]
              simp [List.append_assoc]⟩
          · intro x hx hnx
            have h2' := hres2.stackBack x hx hnx
            have hnx1 : x ∉ st1.out := fun h => h2'.2 (List.mem_append_left _ h)
            have hne : x ≠ n.toNat := by
              intro h
              subst h
              exact h2'.2 (List.mem_append_right _ (List.mem_singleton.mpr rfl))
            have hback := hres1.stackBack x h2'.1 hnx1
            rcases List.mem_cons.mp hback.1 with rfl | hx'
            · exact absurd rfl hne
            · exact ⟨hx', hback.2⟩
          · intro x hx hnx
            by_cases hx2 : x ∈ st2.seen
            · by_cases hx' : x ∈ st'.seen
              · rcases List.mem_cons.mp hx' with rfl | hxx
                · rw [hΔ2]
                  exact List.mem_append_left _ (List.mem_append_right _ (List.mem_singleton.mpr rfl))
                · exact absurd hxx hnx
              · have := hres1.newSeenOut x hx2 hx'
                rw [hΔ2]
                exact List.mem_append_left _ (List.mem_append_left _ this)
            · exact hres2.newSeenOut x hx hx2
          · intro x hx hnx
            by_cases hx2 : x ∈ st2.out
            · rcases List.mem_append.mp hx2 with hx1 | hx1
              · have := hres1.newOut x hx1 hnx
                exact ⟨fun h => this.1 (List.mem_cons_of_mem _ h), this.2⟩
              · simp at hx1
                subst hx1
                exact ⟨h4, hreach⟩
            · have := hres2.newOut x hx hx2
              exact ⟨fun h => this.1 (hseen_sub1 x h), this.2⟩
          · intro n' hn' h0' h1' h2' h3'
            rcases List.mem_cons.mp hn' with h | h
            · have : n' = n := by
                injection h
              subst this
              rw [hΔ2]
              exact List.mem_append_left _ (List.mem_append_right _ (List.mem_singleton.mpr rfl))
            · exact hres2.depsDone n' h h0' h1' h2' h3'
        · rw [dfsGo_int_neg lemmas vo i n rest st hc]
          have hres := IHrest st (fun e he => hdeps e (List.mem_cons_of_mem _ he)) hroot hinv
          refine { seenMono := hres.seenMono, outExt := hres.outExt,
                   nodup := hres.nodup, outSeen := hres.outSeen,
                   stackBack := hres.stackBack, newSeenOut := hres.newSeenOut,
                   sorted := hres.sorted, newOut := hres.newOut, depsDone := ?_ }
          intro n' hn' h0' h1' h2' h3'
          rcases List.mem_cons.mp hn' with h | h
          · have hnn : n' = n := by injection h
            subst hnn
            have hseen : n'.toNat ∈ st.seen := by
              by_contra hns
              exact hc ⟨h0', h1', h2', h3', hns⟩
            have hout : n'.toNat ∈ st.out := by
              by_contra hno
              have := hinv.stack _ hseen hno
              omega
            obtain ⟨Δ, hΔ⟩ := hres.outExt
            rw [hΔ]
            exact List.mem_append_left _ hout
          · exact hres.depsDone n' h h0' h1' h2' h3'

/-- C1: for every lemma store and in-range `lemma_id`,
`build_reasoning_path(lemma_id, verified_only)` succeeds and returns
exactly the transitive surviving dependencies of `lemma_id` (`reaches`),
excluding `lemma_id` itself, deduplicated, in DFS post-order (every
surviving dependency of an output entry occurs at an earlier position);
skipped entries (non-int, out of range, `dep >=` lister id, non-verified
under `verified_only`) never contribute, and with `verified_only` the
output contains only lemmas with status verified. -/
theorem C1_build_reasoning_path (lemmas : List LemmaM) (vo : Bool) (lemmaId : Int)
    (hlo : 0 ≤ lemmaId) (hhi : lemmaId < (lemmas.length : Int)) :
    ∃ out : List Nat,
      build_reasoning_path lemmas lemmaId vo = .ok out ∧
      lemmaId.toNat ∉ out ∧
      out.Nodup ∧
      (∀ x, x ∈ out ↔ reaches lemmas vo lemmaId.toNat x) ∧
      (∀ (p : Nat) (hp : p < out.length) (d : Nat),
        survives lemmas vo (out.get ⟨p, hp⟩) d → d ∈ out.take p) ∧
      (vo = true → ∀ x ∈ out, statusAt lemmas x = "verified") ∧
      (∀ x ∈ out, x < lemmaId.toNat) := by
  have hcond : ¬ (lemmaId < 0 ∨ (lemmas.length : Int) ≤ lemmaId) := by omega
  have hinv0 : DfsInv lemmas vo lemmaId.toNat ⟨[], []⟩ :=
    { nodup := List.nodup_nil,
      outSeen := by intro x hx; simp at hx,
      stack := by intro x hx; simp at hx,
      sorted := SortedOut.nil }
  have hres := dfsGo_main lemmas vo lemmaId.toNat lemmaId.toNat
    (depsAt lemmas lemmaId.toNat) ⟨[], []⟩ (fun e he => he) (Or.inl rfl) hinv0
  refine ⟨(dfsGo lemmas vo lemmaId.toNat (depsAt lemmas lemmaId.toNat) ⟨[], []⟩).out,
    ?_, ?_, hres.nodup, ?_, hres.sorted, ?_, ?_⟩
  · rw [build_reasoning_path, if_neg hcond]
  · intro hmem
    have hr := (hres.newOut _ hmem (by simp)).2
    have := (reaches_elim hr).2.1
    omega
  · intro x
    constructor
    · intro hx
      exact (hres.newOut x hx (by simp)).2
    · intro hr
      induction hr with
      | base hs =>
        rename_i dd
        have hcast : ((dd : Nat) : Int).toNat = dd := by omega
        have := hres.depsDone (dd : Int) hs.1 (Int.natCast_nonneg dd)
          (by exact_mod_cast hs.2.1) (by exact_mod_cast hs.2.2.1)
          (by
            cases vo with
            | false => exact Or.inl rfl
            | true => exact Or.inr (by rw [hcast]; exact hs.2.2.2 rfl))
        rwa [hcast] at this
      | step hr1 hs ih =>
        exact hres.sorted.closed ih hs
  · intro hvo x hx
    exact ((reaches_elim ((hres.newOut x hx (by simp)).2)).2.2) hvo
  · intro x hx
    exact (reaches_elim ((hres.newOut x hx (by simp)).2)).2.1

/-- A concrete lemma record used by witness theorems. -/
def sampleLemma (deps : List Dep) (st : String) : LemmaM :=
  ⟨"s", "p", deps, st, none, none, false, 0, [], false, none⟩

/-- A concrete five-lemma store exercising every filter of
`build_reasoning_path` (forward, negative, out-of-range and non-int
dependency entries, and a non-verified lemma). -/
def sampleLemmas : List LemmaM :=
  [ sampleLemma [] "verified",
    sampleLemma [.intD 0] "verified",
    sampleLemma [.intD 1] "pending",
    sampleLemma [.intD 2, .intD 1, .intD 0, .intD 5, .intD (-1), .nonIntD 0] "verified",
    sampleLemma [.intD 3, .intD 1] "verified" ]

/-- Witness for C1 at the concrete store `sampleLemmas` and lemma id 4. -/
theorem C1_build_reasoning_path_witness :
    (0 : Int) ≤ 4 ∧ (4 : Int) < (sampleLemmas.length : Int) ∧
    (∃ out : List Nat,
      build_reasoning_path sampleLemmas 4 true = .ok out ∧
      (4 : Int).toNat ∉ out ∧
      out.Nodup ∧
      (∀ x, x ∈ out ↔ reaches sampleLemmas true (4 : Int).toNat x) ∧
      (∀ (p : Nat) (hp : p < out.length) (d : Nat),
        survives sampleLemmas true (out.get ⟨p, hp⟩) d → d ∈ out.take p) ∧
      (true = true → ∀ x ∈ out, statusAt sampleLemmas x = "verified") ∧
      (∀ x ∈ out, x < (4 : Int).toNat)) :=
  ⟨by decide, by decide,
    C1_build_reasoning_path sampleLemmas true 4 (by decide) (by decide)⟩

/-- The acceptance token `VERIFY_RESULT_VALID` of src/agents/verifier.py. -/
def VERIFY_RESULT_VALID : String := "boxed{valid}"

/-- Model of `Verifier.__verify`: attempt `i` queries the LLM (modelled by
the `answers` stream giving (answer, cot) pairs) and is valid iff
`boxed{valid}` occurs in the answer text. -/
def verifier_verify (answers : Nat → String × String) (i : Nat) :
    Bool × String × String :=
  let a := answers i
  (pyIn VERIFY_RESULT_VALID a.1, a.1, a.2)

/-- The scaling loop of `Verifier.exec`: run attempts starting at index
`i` with `fuel` iterations left; on the first invalid outcome append it to
the `result` list and break, otherwise remember the outcome in
`verifier_res` (the second component). -/
def verifierScan (answers : Nat → String × String) :
    Nat → Nat → Option (String × String) →
      List (Bool × String × String) × Option (String × String)
  | _, 0, last => ([], last)
  | i, fuel + 1, last =>
    let v := verifier_verify answers i
    if v.1 then verifierScan answers (i + 1) fuel (some (v.2.1, v.2.2))
    else ([(v.1, v.2.1, v.2.2)], last)

/-- Shape of `Verifier.prep`'s result: either the short error tuple
`(EXIT_ON_ERROR, None)` or `(code, lemma_id, lemma, ctx_text)`. -/
inductive VPrep where
  | short
  | normalP (code : String) (lemmaId : Nat) (lem : LemmaM) (ctx : Option String)
deriving DecidableEq

/-- Shape of `Verifier.exec`'s result: the short error tuple or the full
`(code, lemma_id, is_valid, review, cot)` tuple. -/
inductive VExecRes where
  | short
  | full (code : String) (lemmaId : Nat) (isValid : Bool) (review cot : String)
deriving DecidableEq

/-- Model of `Verifier.exec` (src/agents/verifier.py lines 49-87): run the
scaling loop; if an invalid outcome was collected pick index 0 (or the
`random.randint` value `rand` when more than one was collected) from the
collected list, else return the last valid outcome.  List accesses that
would raise become `Except.error`. -/
def verifier_exec (prep : VPrep) (answers : Nat → String × String)
    (rand : Nat) : Except String VExecRes :=
  match prep with
  | .short => .ok .short
  | .normalP code lemmaId _ _ =>
    if code ≠ NORMAL then .ok .short
    else
      let sc := verifierScan answers 0 VERIFIER_SCALING_FACTOR none
      if sc.1.length > 0 then
        let index := if sc.1.length > 1 then rand else 0
        match sc.1.get? index with
        | some t => .ok (.full NORMAL lemmaId t.1 t.2.1 t.2.2)
        | none => .error "IndexError: list index out of range"
      else
        match sc.2 with
        | some t => .ok (.full NORMAL lemmaId true t.1 t.2)
        | none => .error "TypeError: NoneType object is not subscriptable"

/-- Attempt `i` of the answer stream is classified valid. -/
def verifierValidAt (answers : Nat → String × String) (i : Nat) : Prop :=
  pyIn VERIFY_RESULT_VALID (answers i).1 = true

instance (answers : Nat → String × String) (i : Nat) :
    Decidable (verifierValidAt answers i) := by
  unfold verifierValidAt; infer_instance

/-- The collected invalid-outcome list never holds more than one entry:
the loop breaks right after the first append. -/
theorem verifierScan_len_le_one (answers : Nat → String × String) :
    ∀ (fuel i : Nat) (last : Option (String × String)),
      (verifierScan answers i fuel last).1.length ≤ 1 := by
  intro fuel
  induction fuel with
  | zero => intro i last; simp [verifierScan]
  | succ f ih =>
    intro i last
    rw [verifierScan]
    by_cases hv : (verifier_verify answers i).1 = true
    · simp only [hv, if_true]
      exact ih (i + 1) _
    · simp only [Bool.not_eq_true] at hv
      simp [hv]

/-- When every attempt in the window is valid the loop collects nothing
and remembers the last attempt's outcome. -/
theorem verifierScan_all_valid (answers : Nat → String × String) :
    ∀ (fuel i : Nat) (last : Option (String × String)),
      (∀ k, k < fuel → verifierValidAt answers (i + k)) →
      verifierScan answers i fuel last =
        ([], if fuel = 0 then last
             else some ((answers (i + fuel - 1)).1, (answers (i + fuel - 1)).2)) := by
  intro fuel
  induction fuel with
  | zero => intro i last _; simp [verifierScan]
  | succ f ih =>
    intro i last hall
    have hv : (verifier_verify answers i).1 = true := hall 0 (Nat.succ_pos f)
    rw [verifierScan]
    simp only [hv, if_true]
    have := ih (i + 1) (some ((verifier_verify answers i).2.1, (verifier_verify answers i).2.2))
      (fun k hk => by
        have := hall (k + 1) (Nat.succ_lt_succ hk)
        simpa [Nat.add_assoc, Nat.add_comm, Nat.add_left_comm] using this)
    rw [this]
    rcases Nat.eq_zero_or_pos f with rfl | hf
    · simp [verifier_verify]
    · have hne : ¬ (f = 0) := Nat.pos_iff_ne_zero.mp hf
      simp only [hne, if_false, Nat.succ_ne_zero, Nat.add_sub_cancel]
      have harg : i + 1 + f - 1 = i + (f + 1) - 1 := by omega
      rw [harg]

/-- When attempt `i + j` is the first invalid one inside the window, the
loop collects exactly that attempt's outcome. -/
theorem verifierScan_first_invalid (answers : Nat → String × String) :
    ∀ (j fuel i : Nat) (last : Option (String × String)),
      j < fuel → ¬ verifierValidAt answers (i + j) →
      (∀ k, k < j → verifierValidAt answers (i + k)) →
      (verifierScan answers i fuel last).1 =
        [(false, (answers (i + j)).1, (answers (i + j)).2)] := by
  intro j
  induction j with
  | zero =>
    intro fuel i last hj hinv _
    obtain ⟨f, rfl⟩ := Nat.exists_eq_succ_of_ne_zero (Nat.pos_iff_ne_zero.mp hj)
    have hv : (verifier_verify answers i).1 = false := by
      simp only [verifierValidAt, Nat.add_zero, Bool.not_eq_true] at hinv
      simpa [verifier_verify] using hinv
    rw [verifierScan]
    simp only [hv, Bool.false_eq_true, if_false]
    simp [verifier_verify, Nat.add_zero]
  | succ j ih =>
    intro fuel i last hj hinv hall
    obtain ⟨f, rfl⟩ : ∃ f, fuel = f + 1 := by
      cases fuel with
      | zero => omega
      | succ f => exact ⟨f, rfl⟩
    have hv : (verifier_verify answers i).1 = true := by
      have := hall 0 (Nat.succ_pos j)
      simpa [verifier_verify, verifierValidAt] using this
    rw [verifierScan]
    simp only [hv, if_true]
    have harg : i + 1 + j = i + (j + 1) := by omega
    have := ih f (i + 1)
      (some ((verifier_verify answers i).2.1, (verifier_verify answers i).2.2))
      (by omega) (by rw [harg]; exact hinv)
      (fun k hk => by
        have := hall (k + 1) (Nat.succ_lt_succ hk)
        have harg2 : i + 1 + k = i + (k + 1) := by omega
        rw [harg2]
        exact this)
    rw [this, harg]

/-- If the loop collects nothing and ran at least one iteration, a last
valid outcome was recorded. -/
theorem verifierScan_some_of_nil (answers : Nat → String × String) :
    ∀ (fuel i : Nat) (last : Option (String × String)),
      (last.isSome ∨ 0 < fuel) →
      (verifierScan answers i fuel last).1 = [] →
      (verifierScan answers i fuel last).2.isSome := by
  intro fuel
  induction fuel with
  | zero =>
    intro i last h hnil
    rcases h with h | h
    · simpa [verifierScan] using h
    · omega
  | succ f ih =>
    intro i last _ hnil
    rw [verifierScan] at hnil ⊢
    by_cases hv : (verifier_verify answers i).1 = true
    · simp only [hv, if_true] at hnil ⊢
      exact ih (i + 1) _ (Or.inl rfl) hnil
    · simp only [Bool.not_eq_true] at hv
      simp [hv] at hnil

/-- The scaling loop only consults attempts inside its window. -/
theorem verifierScan_congr (answers answers' : Nat → String × String) :
    ∀ (fuel i : Nat) (last : Option (String × String)),
      (∀ k, k < fuel → answers (i + k) = answers' (i + k)) →
      verifierScan answers i fuel last = verifierScan answers' i fuel last := by
  intro fuel
  induction fuel with
  | zero => intro i last _; simp [verifierScan]
  | succ f ih =>
    intro i last hagree
    have h0 : answers i = answers' i := by
      have := hagree 0 (Nat.succ_pos f)
      simpa using this
    rw [verifierScan, verifierScan]
    simp only [verifier_verify, h0]
    by_cases hv : (pyIn VERIFY_RESULT_VALID (answers' i).1) = true
    · simp only [hv, if_true]
      exact ih (i + 1) _ (fun k hk => by
        have := hagree (k + 1) (Nat.succ_lt_succ hk)
        have harg : i + 1 + k = i + (k + 1) := by omega
        rw [harg]
        exact this)
    · simp only [Bool.not_eq_true] at hv
      simp [hv]

/-- C2: `Verifier.exec` runs at most `VERIFIER_SCALING_FACTOR` attempts
(the result only depends on the first `VERIFIER_SCALING_FACTOR` answers),
classifies an attempt valid iff `boxed{valid}` occurs in its answer, stops
at the first invalid attempt and returns that attempt's
(invalid, review, cot) outcome, and returns the last attempt's outcome
when every attempt is valid. -/
theorem C2_verifier_exec (lemmaId : Nat) (lem : LemmaM) (ctx : Option String)
    (answers answers' : Nat → String × String) (rand : Nat) :
    ((∀ k, k < VERIFIER_SCALING_FACTOR → verifierValidAt answers k) →
      verifier_exec (.normalP NORMAL lemmaId lem ctx) answers rand =
        .ok (.full NORMAL lemmaId true (answers (VERIFIER_SCALING_FACTOR - 1)).1
          (answers (VERIFIER_SCALING_FACTOR - 1)).2)) ∧
    (∀ j, j < VERIFIER_SCALING_FACTOR → ¬ verifierValidAt answers j →
      (∀ k, k < j → verifierValidAt answers k) →
      verifier_exec (.normalP NORMAL lemmaId lem ctx) answers rand =
        .ok (.full NORMAL lemmaId false (answers j).1 (answers j).2)) ∧
    ((∀ k, k < VERIFIER_SCALING_FACTOR → answers k = answers' k) →
      verifier_exec (.normalP NORMAL lemmaId lem ctx) answers rand =
        verifier_exec (.normalP NORMAL lemmaId lem ctx) answers' rand) := by
  refine ⟨?_, ?_, ?_⟩
  · intro hall
    have hscan := verifierScan_all_valid answers VERIFIER_SCALING_FACTOR 0 none
      (fun k hk => by simpa using hall k hk)
    rw [verifier_exec]
    simp only [ne_eq, not_true_eq_false, if_false, hscan]
    simp [VERIFIER_SCALING_FACTOR]
  · intro j hj hinv hall
    have hscan := verifierScan_first_invalid answers j VERIFIER_SCALING_FACTOR 0 none hj
      (by simpa using hinv) (fun k hk => by simpa using hall k hk)
    rw [verifier_exec]
    simp only [ne_eq, not_true_eq_false, if_false]
    simp [hscan]
  · intro hagree
    have hscan := verifierScan_congr answers answers' VERIFIER_SCALING_FACTOR 0 none
      (fun k hk => by simpa using hagree k hk)
    rw [verifier_exec, verifier_exec]
    simp only [hscan]

/-- C10: the collected invalid-outcome list has length at most one, so
the `result[index]` access in `Verifier.exec` is always in bounds (the
call never raises IndexError), the `random.randint` branch is dead, and
the result does not depend on the random draw. -/
theorem C10_verifier_result_access (prep : VPrep)
    (answers : Nat → String × String) (rand : Nat) :
    (verifierScan answers 0 VERIFIER_SCALING_FACTOR none).1.length ≤ 1 ∧
    (∃ res, verifier_exec prep answers rand = .ok res) ∧
    verifier_exec prep answers rand = verifier_exec prep answers 0 := by
  refine ⟨verifierScan_len_le_one answers VERIFIER_SCALING_FACTOR 0 none, ?_, ?_⟩
  · match prep with
    | .short => exact ⟨.short, rfl⟩
    | .normalP code lemmaId lem ctx =>
      rw [verifier_exec]
      by_cases hcode : code ≠ NORMAL
      · simp [hcode]
      · simp only [hcode, if_false]
        set sc := verifierScan answers 0 VERIFIER_SCALING_FACTOR none with hsc
        by_cases hlen : sc.1.length > 0
        · have h1 : sc.1.length = 1 := by
            have := verifierScan_len_le_one answers VERIFIER_SCALING_FACTOR 0 none
            rw [← hsc] at this
            omega
          have hidx : (if sc.1.length > 1 then rand else 0) = 0 := by
            rw [h1]
            simp
          simp only [hlen, if_true, hidx]
          match hget : sc.1.get? 0 with
          | some t => exact ⟨_, rfl⟩
          | none =>
            rw [List.get?_eq_none] at hget
            omega
        · have hsome := verifierScan_some_of_nil answers VERIFIER_SCALING_FACTOR 0 none
            (Or.inr (by norm_num [VERIFIER_SCALING_FACTOR]))
            (by
              rw [← hsc]
              have : sc.1.length = 0 := by omega
              exact List.length_eq_zero.mp this)
          rw [← hsc] at hsome
          simp only [hlen, if_false]
          match hget : sc.2 with
          | some t => exact ⟨_, rfl⟩
          | none => rw [hget] at hsome; simp at hsome
  · match prep with
    | .short => rfl
    | .normalP code lemmaId lem ctx =>
      rw [verifier_exec, verifier_exec]
      by_cases hcode : code ≠ NORMAL
      · simp [hcode]
      · simp only [hcode, if_false]
        set sc := verifierScan answers 0 VERIFIER_SCALING_FACTOR none with hsc
        by_cases hlen : sc.1.length > 0
        · have h1 : sc.1.length = 1 := by
            have := verifierScan_len_le_one answers VERIFIER_SCALING_FACTOR 0 none
            rw [← hsc] at this
            omega
          have hidx : (if sc.1.length > 1 then rand else 0) = 0 := by
            rw [h1]
            simp
          have hidx0 : (if sc.1.length > 1 then 0 else 0) = 0 := by simp
          simp only [hlen, if_true, hidx, hidx0]
        · simp only [hlen, if_false]

/-- Concrete answer stream: attempt 0 valid, all later attempts invalid. -/
def sampleAnswers : Nat → String × String := fun i =>
  if i = 0 then ("Check passed. boxed{valid}", "cot0") else ("The step is wrong.", "cot1")

/-- Witness for C2: with `sampleAnswers` the first invalid attempt (index
1) decides the outcome. -/
theorem C2_verifier_exec_witness :
    (1 < VERIFIER_SCALING_FACTOR) ∧
    (¬ verifierValidAt sampleAnswers 1) ∧
    (∀ k, k < 1 → verifierValidAt sampleAnswers k) ∧
    verifier_exec (.normalP NORMAL 0 (sampleLemma [] "pending") none) sampleAnswers 7 =
      .ok (.full NORMAL 0 false "The step is wrong." "cot1") :=
  ⟨by norm_num [VERIFIER_SCALING_FACTOR],
   by decide,
   by
     intro k hk
     have hk0 : k = 0 := by omega
     subst hk0
     decide,
   (C2_verifier_exec 0 (sampleLemma [] "pending") none sampleAnswers sampleAnswers 7).2.1
     1 (by norm_num [VERIFIER_SCALING_FACTOR]) (by decide)
     (fun k hk => by
       have hk0 : k = 0 := by omega
       subst hk0
       decide)⟩

/-- Model of `Verifier.post` (src/agents/verifier.py lines 90-143):
mutate the judged lemma's status, review and cot, and return the routing
action. -/
def verifier_post (shared : SharedCtx) (execRes : VExecRes) :
    Except String (String × SharedCtx) :=
  match execRes with
  | .short => .ok (EXIT_ON_ERROR, shared)
  | .full code lemmaId isValid review cot =>
    if code ≠ NORMAL then .ok (EXIT_ON_ERROR, shared)
    else
      match shared.lemmas.get? lemmaId with
      | none => .error "IndexError: list index out of range"
      | some lem =>
        if isValid then
          let lem' := { lem with status := "verified",
                                 review := some review, cot := some cot }
          let shared' := { shared with lemmas := shared.lemmas.set lemmaId lem' }
          if lem.isTheorem then .ok (DONE, shared')
          else .ok (CONJECTURE_VERIFIED, shared')
        else
          let lem' := { lem with status := "pending",
                                 review := some review, cot := some cot }
          .ok (CONJECTURE_UNVERIFIED,
               { shared with lemmas := shared.lemmas.set lemmaId lem' })

/-- A pending lemma with no review, used by verifier/refiner examples. -/
def samplePendingLemma : LemmaM :=
  ⟨"stmt", "prf", [], "pending", none, none, false, 0, [], false, none⟩

/-- A one-lemma shared state used in counterexamples and witnesses. -/
def sampleShared : SharedCtx :=
  ⟨"problem", none, 3, 5, [samplePendingLemma], some 0, none⟩

/-- C3 counterexample: a successful valid-verdict `Verifier.post` leaves
`verify_round` unchanged (it is never incremented) and sets `review` to
the verifier's answer text instead of clearing it. -/
theorem C3_verifier_post_counterexample :
    ∃ shared',
      verifier_post sampleShared (.full NORMAL 0 true "All good. boxed{valid}" "cotv") =
        .ok (CONJECTURE_VERIFIED, shared') ∧
      ((shared'.lemmas.get? 0).map LemmaM.verifyRound = some 0) ∧
      ((shared'.lemmas.get? 0).map LemmaM.review =
        some (some "All good. boxed{valid}")) := by
  refine ⟨_, rfl, ?_, ?_⟩ <;> decide

/-- C3 amended: a successful `Verifier.post` sets the lemma's status to
verified (valid) or pending (invalid), stores the answer text as the
review and the reasoning as cot in both cases, routes to
DONE/CONJECTURE_VERIFIED/CONJECTURE_UNVERIFIED, touches only the lemma
list, and leaves `verify_round` unchanged. -/
theorem C3_verifier_post_amended (shared : SharedCtx) (lemmaId : Nat)
    (isValid : Bool) (review cot : String) (lem : LemmaM)
    (h : shared.lemmas.get? lemmaId = some lem) :
    verifier_post shared (.full NORMAL lemmaId isValid review cot) =
      .ok ((if isValid then (if lem.isTheorem then DONE else CONJECTURE_VERIFIED)
            else CONJECTURE_UNVERIFIED),
           { shared with
              lemmas := shared.lemmas.set lemmaId
                { lem with status := if isValid then "verified" else "pending",
                           review := some review, cot := some cot } }) ∧
    (((shared.lemmas.set lemmaId
        { lem with status := if isValid then "verified" else "pending",
                   review := some review, cot := some cot }).get? lemmaId).map
        LemmaM.verifyRound = some lem.verifyRound) := by
  constructor
  · rw [verifier_post]
    simp only [ne_eq, not_true_eq_false, if_false, h]
    cases isValid <;> cases hth : lem.isTheorem <;> simp [hth]
  · have hlt : lemmaId < shared.lemmas.length := (List.get?_eq_some.mp h).1
    rw [List.get?_eq_getElem?, List.getElem?_set_self (by simpa using hlt)]
    simp

/-- Witness for the amended C3 at the concrete one-lemma state. -/
theorem C3_verifier_post_amended_witness :
    (sampleShared.lemmas.get? 0 = some samplePendingLemma) ∧
    (verifier_post sampleShared (.full NORMAL 0 false "Step 3 is wrong." "cotw") =
      .ok (CONJECTURE_UNVERIFIED,
           { sampleShared with
              lemmas := sampleShared.lemmas.set 0
                { samplePendingLemma with
                  status := "pending",
                  review := some "Step 3 is wrong.", cot := some "cotw" } }) ∧
     (((sampleShared.lemmas.set 0
          { samplePendingLemma with
            status := "pending",
            review := some "Step 3 is wrong.", cot := some "cotw" }).get? 0).map
          LemmaM.verifyRound = some samplePendingLemma.verifyRound)) :=
  ⟨by decide,
   by
     have h := C3_verifier_post_amended sampleShared 0 false "Step 3 is wrong." "cotw"
       samplePendingLemma (by decide)
     simpa using h⟩

deriving instance DecidableEq for Except

/-- Model of `extract_substring` (src/utils/utils.py): slice between the
first occurrence of `begin_str` and the first occurrence of `end_str`,
requiring the end marker not to start before the begin marker ends. -/
def extract_substring (target : Option String) (beginStr endStr : String) :
    Option String :=
  match target with
  | none => none
  | some s =>
    let cs := s.toList
    match pyFind cs beginStr.toList, pyFind cs endStr.toList with
    | some bi, some ei =>
      if bi + beginStr.toList.length ≤ ei then
        some (String.mk ((cs.drop (bi + beginStr.toList.length)).take
          (ei - (bi + beginStr.toList.length))))
      else none
    | _, _ => none

/-- The LaTeX-style extraction markers of src/agents/solver.py. -/
def CONJECTURE_BEGIN : String := "\\begin{conjecture}"
def CONJECTURE_END : String := "\\end{conjecture}"
def PROOF_BEGIN : String := "\\begin{proof}"
def PROOF_END : String := "\\end{proof}"
def DEPENDENCY_BEGIN : String := "\\begin{dependency}"
def DEPENDENCY_END : String := "\\end{dependency}"

/-- Python `str.strip()` on character lists. -/
def pyStripChars (cs : List Char) : List Char :=
  ((cs.dropWhile pyIsSpace).reverse.dropWhile pyIsSpace).reverse

/-- ASCII model of Python `str.lower()` on one character. -/
def pyLowerChar (c : Char) : Char :=
  if 'A' ≤ c ∧ c ≤ 'Z' then Char.ofNat (c.toNat + 32) else c

/-- Model of Python `s.strip().lower()` (ASCII), as used by the solver's
is-theorem check. -/
def pyStripLower (s : String) : List Char :=
  (pyStripChars s.toList).map pyLowerChar

/-- Model of `SharedContext.validate_lemma` restricted to the checks that
are dynamic in this typed embedding: dependencies must all be ints, the
status must be legal, and only when `lemma_id` is passed must every
dependency reference an earlier lemma. -/
def validate_lemma (lem : LemmaM) (lemmaId : Option Int) : Except String Unit :=
  if lem.dependencies.any (fun d => match d with
      | .intD _ => false
      | .nonIntD _ => true) then
    .error "TypeError: Lemma.dependencies must be List of int"
  else if ¬ (lem.status = "pending" ∨ lem.status = "verified" ∨
             lem.status = "rejected") then
    .error "ValueError: Lemma.status must be one of pending verified rejected"
  else
    match lemmaId with
    | none => .ok ()
    | some i =>
      if lem.dependencies.any (fun d => match d with
          | .intD n => decide (i ≤ n)
          | .nonIntD _ => false) then
        .error "ValueError: Lemma.dependencies must reference earlier lemmas only"
      else .ok ()

/-- Shape of `Solver.exec`'s result as consumed by `Solver.post`: the
error tuple, the exhausted tuple, or `(CONJECTURE_GENERATED, lemma, _)`
where the lemma may be `None` when extraction failed. -/
inductive SExecRes where
  | errorE
  | exhaustedE
  | generated (lem : Option LemmaM)
deriving DecidableEq

/-- Model of `Solver.post` (src/agents/solver.py lines 71-120): validate
the lemma (without passing its id), optionally upgrade `is_theorem` via
the secondary yes/no LLM check (`checkAnswer`), append the lemma and point
`current_lemma_id` at it. -/
def solver_post (shared : SharedCtx) (execRes : Option SExecRes)
    (checkAnswer : String) : Except String (String × SharedCtx) :=
  match execRes with
  | none => .ok (EXIT_ON_ERROR, shared)
  | some .exhaustedE => .ok (EXIT_ON_EXAUSTED, shared)
  | some .errorE => .error "AttributeError: NoneType object has no attribute keys"
  | some (.generated lem) =>
    match lem with
    | none => .error "AttributeError: NoneType object has no attribute keys"
    | some l =>
      match validate_lemma l none with
      | .error e => .error e
      | .ok () =>
        let l1 := if l.isTheorem = false ∧ pyStripLower checkAnswer = "yes".toList
                  then { l with isTheorem := true } else l
        let lemmas' := shared.lemmas ++ [l1]
        .ok (CONJECTURE_GENERATED,
             { shared with lemmas := lemmas',
                           currentLemmaId := some (lemmas'.length - 1) })

/-- A lemma whose dependency list references lemma 5, used to exhibit the
missing backward-dependency enforcement. -/
def forwardDepLemma : LemmaM :=
  ⟨"stmt", "prf", [.intD 5], "pending", none, none, false, 0, [], false, none⟩

/-- C4 (code bug): `Solver.post` accepts and stores a lemma whose
dependency entry 5 is not smaller than its index 0, because it calls
`validate_lemma` without the `lemma_id` argument; the same lemma would be
rejected had the id been passed. -/
theorem C4_backward_deps_code_bug :
    ∃ shared',
      solver_post ⟨"p", none, 3, 5, [], none, none⟩
          (some (.generated (some forwardDepLemma))) "no" =
        .ok (CONJECTURE_GENERATED, shared') ∧
      shared'.currentLemmaId = some 0 ∧
      (∃ l, shared'.lemmas.get? 0 = some l ∧ Dep.intD 5 ∈ l.dependencies ∧
        ¬ ((5 : Int) < ((0 : Nat) : Int))) ∧
      validate_lemma forwardDepLemma (some 0) ≠ .ok () := by
  refine ⟨_, rfl, by decide, ⟨forwardDepLemma, by decide, by decide, by decide⟩, by decide⟩

/-- JSON whitespace skipping, part of the `json.loads` model. -/
def skipJsonWs : List Char → List Char
  | [] => []
  | c :: cs =>
    if c = ' ' ∨ c = '\t' ∨ c = '\n' ∨ c = '\x0d' then skipJsonWs cs else c :: cs

/-- Digit-run parser accumulating a decimal value (at least one digit). -/
def parseDigitsAux : List Char → Nat → Bool → Option (Nat × List Char)
  | [], acc, seen => if seen then some (acc, []) else none
  | c :: cs, acc, seen =>
    if c.isDigit then parseDigitsAux cs (acc * 10 + (c.toNat - 48)) true
    else if seen then some (acc, c :: cs) else none

/-- Parser for one (possibly negated) JSON integer. -/
def parseJsonInt : List Char → Option (Int × List Char)
  | '-' :: rest => (parseDigitsAux rest 0 false).map fun p => (-(p.1 : Int), p.2)
  | cs => (parseDigitsAux cs 0 false).map fun p => ((p.1 : Int), p.2)

/-- Parser for the remainder of a JSON int array after the first element
(fuel-bounded). -/
def parseJsonIntsRest : Nat → List Char → Option (List Int × List Char)
  | 0, _ => none
  | fuel + 1, cs =>
    match skipJsonWs cs with
    | ']' :: rest => some ([], rest)
    | ',' :: rest =>
      match parseJsonInt (skipJsonWs rest) with
      | some (v, r) => (parseJsonIntsRest fuel r).map fun p => (v :: p.1, p.2)
      | none => none
    | _ => none

/-- Model of Python `json.loads` restricted to the solver's dependency
site: accepts a JSON array of integers (e.g. `[]` or `[0, 3, 4]`) and
rejects any other input.  (`json.loads` accepts further JSON shapes, but
the dependency contract and the inputs exercised here are int arrays or
invalid text.) -/
def json_loads_int_array (s : String) : Option (List Int) :=
  match skipJsonWs s.toList with
  | '[' :: rest =>
    match skipJsonWs rest with
    | ']' :: r2 => if skipJsonWs r2 = [] then some [] else none
    | rest' =>
      match parseJsonInt rest' with
      | some (v, r) =>
        match parseJsonIntsRest (r.length + 1) r with
        | some (vs, rfin) =>
          if skipJsonWs rfin = [] then some (v :: vs) else none
        | none => none
      | none => none
  | _ => none

/-- Model of `Solver.__build_lemma` (src/agents/solver.py lines 151-188):
extract the three LaTeX-tagged regions from the last message, parse the
dependency region as a JSON int array when present and non-empty (raising
on invalid JSON), and build a pending lemma only when both statement and
proof are non-empty. -/
def solver_build_lemma (messages : List Msg) : Except String (Option LemmaM) :=
  match messages.getLast? with
  | none => .error "IndexError: list index out of range"
  | some m =>
    let resp := m.content
    let statement := extract_substring (some resp) CONJECTURE_BEGIN CONJECTURE_END
    let prf := extract_substring (some resp) PROOF_BEGIN PROOF_END
    let dependencies := extract_substring (some resp) DEPENDENCY_BEGIN DEPENDENCY_END
    let depsE : Except String (List Int) :=
      match dependencies with
      | some ds =>
        if ds ≠ "" then
          match json_loads_int_array ds with
          | some vs => .ok vs
          | none => .error "json.decoder.JSONDecodeError"
        else .ok []
      | none => .ok []
    match depsE with
    | .error e => .error e
    | .ok deps =>
      match statement, prf with
      | some s, some p =>
        if s ≠ "" ∧ p ≠ "" then
          .ok (some ⟨s, p, deps.map Dep.intD, "pending", none, none, false, 0,
                     messages, false, none⟩)
        else .ok none
      | _, _ => .ok none

/-- Shape of `Solver.prep`'s result as consumed by `Solver.exec`. -/
inductive SPrep where
  | exhaustedS
  | normalS (messages : List Msg)
deriving DecidableEq

/-- Model of `Solver.exec` (src/agents/solver.py lines 51-68); the LLM
call is modelled by the `updatedMessages` transcript it returns. -/
def solver_exec (prep : Option SPrep) (updatedMessages : List Msg) :
    Except String (String × Option LemmaM × List Msg) :=
  match prep with
  | none => .ok (EXIT_ON_ERROR, none, [])
  | some .exhaustedS => .ok (EXIT_ON_EXAUSTED, none, [])
  | some (.normalS _) =>
    match solver_build_lemma updatedMessages with
    | .error e => .error e
    | .ok lem => .ok (CONJECTURE_GENERATED, lem, updatedMessages)

/-- A response using the angle-bracket tags that C5 claims are
extracted. -/
def angleResp : String :=
  "<conjecture>A</conjecture><proof>B</proof><dependency>[]</dependency>"

/-- C5 counterexample: a response containing all three angle-bracket
tagged regions yields no lemma at all (the code searches for
`\begin{conjecture}`-style LaTeX markers), and the failed extraction
still returns CONJECTURE_GENERATED with a null lemma, not
EXIT_ON_ERROR. -/
theorem C5_solver_tags_counterexample :
    (pyIn "<conjecture>" angleResp = true) ∧ (pyIn "</conjecture>" angleResp = true) ∧
    (pyIn "<proof>" angleResp = true) ∧ (pyIn "</proof>" angleResp = true) ∧
    (pyIn "<dependency>" angleResp = true) ∧ (pyIn "</dependency>" angleResp = true) ∧
    solver_exec (some (.normalS [])) [⟨"assistant", angleResp⟩] =
      .ok (CONJECTURE_GENERATED, none, [⟨"assistant", angleResp⟩]) := by
  decide

/-- A well-formed LaTeX-tagged solver response. -/
def latexResp : String :=
  "\\begin{conjecture}A\\end{conjecture}\\begin{proof}B\\end{proof}\\begin{dependency}[0, 2]\\end{dependency}"

/-- A LaTeX-tagged response with no dependency region. -/
def latexRespNoDep : String :=
  "\\begin{conjecture}A\\end{conjecture}\\begin{proof}B\\end{proof}"

/-- A LaTeX-tagged response whose dependency region is invalid JSON. -/
def latexRespBadDep : String :=
  "\\begin{conjecture}A\\end{conjecture}\\begin{proof}B\\end{proof}\\begin{dependency}abc\\end{dependency}"

/-- A LaTeX-tagged response with no proof region. -/
def latexRespNoProof : String :=
  "\\begin{conjecture}A\\end{conjecture}\\begin{dependency}[]\\end{dependency}"

/-- C5 amended: `Solver.__build_lemma` extracts the regions delimited by
`\begin{conjecture}`/`\end{conjecture}`, `\begin{proof}`/`\end{proof}`
and `\begin{dependency}`/`\end{dependency}`; the dependency region is
parsed as a JSON int array, a missing dependency region defaults to an
empty list, invalid dependency JSON raises out of exec, and a missing
conjecture or proof region yields a null lemma while exec still returns
CONJECTURE_GENERATED (EXIT_ON_ERROR arises only from an invalid
prep/exec result, not from extraction failure). -/
theorem C5_solver_build_lemma_amended :
    (solver_exec (some (.normalS [])) [⟨"assistant", latexResp⟩] =
      .ok (CONJECTURE_GENERATED,
        some ⟨"A", "B", [.intD 0, .intD 2], "pending", none, none, false, 0,
              [⟨"assistant", latexResp⟩], false, none⟩,
        [⟨"assistant", latexResp⟩])) ∧
    ( solver_build_lemma [⟨"assistant", latexRespNoDep⟩] =
      .ok (some ⟨"A", "B", [], "pending", none, none, false, 0,
                 [⟨"assistant", latexRespNoDep⟩], false, none⟩)) ∧
    (solver_exec (some (.normalS [])) [⟨"assistant", latexRespBadDep⟩] =
      .error "json.decoder.JSONDecodeError") ∧
    (solver_exec (some (.normalS [])) [⟨"assistant", latexRespNoProof⟩] =
      .ok (CONJECTURE_GENERATED, none, [⟨"assistant", latexRespNoProof⟩])) := by
  refine ⟨by decide, by decide, by decide, by decide⟩

/-- Exceptions raised inside one `LLMClient.get_result` attempt: the
service exception of src/llms/exceptions.py, or any other exception (both
are caught and retried alike). -/
inductive LLMErr where
  | service (message status : String)
  | other (message : String)
deriving DecidableEq

/-- Result triple of `LLMClient.get_result`:
(answer_content, reasoning_content, updated_messages). -/
abbrev LLMRes := String × String × List Msg

/-- Model of the finish-reason check at the end of
`LLMClient._get_one_response` (src/llms/utils.py lines 436-443): a falsy
finish reason (absent or empty) and any reason outside stop/tool_calls
raise an `LLMServiceException`. -/
def check_finish_reason (finishReason : Option String) : Except LLMErr Unit :=
  match finishReason with
  | none =>
    .error (.service "LLM response missing finish_reason" "missing_finish_reason")
  | some r =>
    if r = "" then
      .error (.service "LLM response missing finish_reason" "missing_finish_reason")
    else if r = "stop" ∨ r = "tool_calls" then .ok ()
    else .error (.service ("LLM response interrupted, finish_reason=" ++ r) r)

/-- The retry loop of `LLMClient.get_result` (src/llms/utils.py lines
103-200): `attempt` attempts have been used, `remaining` may still run;
each attempt restarts from the deep-copied baseline `base` (the loop body
executes `messages = deepcopy(base_messages)` before calling the
provider), a successful attempt returns, a failing final attempt
re-raises, and a zero-attempt budget falls through to the post-loop
`return "", "", deepcopy(base_messages)`. -/
def llmRetryGo (run : Nat → List Msg → Except LLMErr LLMRes) (base : List Msg) :
    Nat → Nat → Except LLMErr LLMRes
  | _, 0 => .ok ("", "", base)
  | attempt, remaining + 1 =>
    match run (attempt + 1) base with
    | .ok res => .ok res
    | .error e =>
      if remaining = 0 then .error e
      else llmRetryGo run base (attempt + 1) remaining

/-- Model of `LLMClient.get_result`: run up to `MAX_API_RETRY` attempts,
each restarted from the baseline messages.  One whole attempt (stream,
tool loop, finish-reason check) is abstracted by `run`. -/
def llm_get_result (run : Nat → List Msg → Except LLMErr LLMRes)
    (messages : List Msg) : Except LLMErr LLMRes :=
  llmRetryGo run messages 0 MAX_API_RETRY

/-- The retry loop returns the outcome of the first successful attempt
within its budget. -/
theorem llmRetryGo_first_success
    (run : Nat → List Msg → Except LLMErr LLMRes) (base : List Msg) :
    ∀ (remaining attempt j : Nat), 1 ≤ j → j ≤ remaining →
      (∃ res, run (attempt + j) base = .ok res) →
      (∀ k, 1 ≤ k → k < j → ∃ e, run (attempt + k) base = .error e) →
      llmRetryGo run base attempt remaining = run (attempt + j) base := by
  intro remaining
  induction remaining with
  | zero => intro attempt j h1 h2; omega
  | succ rem ih =>
    intro attempt j h1 h2 hok hfail
    rw [llmRetryGo]
    rcases Nat.eq_or_lt_of_le h1 with rfl | hj
    · obtain ⟨res, hres⟩ := hok
      rw [hres]
    · obtain ⟨e, he⟩ := hfail 1 (le_refl _) hj
      rw [he]
      have hrem : ¬ (rem = 0) := by omega
      simp only [hrem, if_false]
      have := ih (attempt + 1) (j - 1) (by omega) (by omega)
        (by
          have harg : attempt + 1 + (j - 1) = attempt + j := by omega
          rw [harg]
          exact hok)
        (by
          intro k hk1 hk2
          have harg : attempt + 1 + k = attempt + (k + 1) := by omega
          rw [harg]
          exact hfail (k + 1) (by omega) (by omega))
      rw [this]
      have harg : attempt + 1 + (j - 1) = attempt + j := by omega
      rw [harg]

/-- When every attempt in the budget fails, the loop re-raises the last
attempt's exception. -/
theorem llmRetryGo_all_fail
    (run : Nat → List Msg → Except LLMErr LLMRes) (base : List Msg) :
    ∀ (remaining attempt : Nat), 1 ≤ remaining →
      (∀ k, 1 ≤ k → k ≤ remaining → ∃ e, run (attempt + k) base = .error e) →
      llmRetryGo run base attempt remaining = run (attempt + remaining) base := by
  intro remaining
  induction remaining with
  | zero => intro attempt h1; omega
  | succ rem ih =>
    intro attempt _ hfail
    rw [llmRetryGo]
    obtain ⟨e, he⟩ := hfail 1 (le_refl _) (by omega)
    rw [he]
    rcases Nat.eq_zero_or_pos rem with rfl | hrem
    · simp only [if_true]
      exact he.symm
    · have hrem' : ¬ (rem = 0) := by omega
      simp only [hrem', if_false]
      have := ih (attempt + 1) hrem (by
        intro k hk1 hk2
        have harg : attempt + 1 + k = attempt + (k + 1) := by omega
        rw [harg]
        exact hfail (k + 1) (by omega) (by omega))
      rw [this]
      have harg : attempt + 1 + rem = attempt + (rem + 1) := by omega
      rw [harg]

/-- The retry loop consults no attempt beyond its budget. -/
theorem llmRetryGo_congr
    (run run' : Nat → List Msg → Except LLMErr LLMRes) (base : List Msg) :
    ∀ (remaining attempt : Nat),
      (∀ k, 1 ≤ k → k ≤ remaining → run (attempt + k) base = run' (attempt + k) base) →
      llmRetryGo run base attempt remaining = llmRetryGo run' base attempt remaining := by
  intro remaining
  induction remaining with
  | zero => intro attempt _; rfl
  | succ rem ih =>
    intro attempt hagree
    rw [llmRetryGo, llmRetryGo]
    have h1 := hagree 1 (le_refl _) (by omega)
    rw [← h1]
    match hres : run (attempt + 1) base with
    | .ok res => rfl
    | .error e =>
      rcases Nat.eq_zero_or_pos rem with rfl | hrem
      · simp
      · have hrem' : ¬ (rem = 0) := by omega
        simp only [hrem', if_false]
        exact ih (attempt + 1) (by
          intro k hk1 hk2
          have harg : attempt + 1 + k = attempt + (k + 1) := by omega
          rw [harg]
          exact hagree (k + 1) (by omega) (by omega))

/-- C6: a streamed attempt ending without a terminal finish reason, or
with one outside stop/tool_calls, raises a retryable service exception;
`get_result` runs at most `MAX_API_RETRY` (8) attempts, returns the first
success, re-raises after the last failure, and every attempt (retries
included) is invoked on the deep-copied baseline messages `base`, never on
a partial stream's transcript. -/
theorem C6_llm_retry (fr : Option String) (r : String)
    (run run' : Nat → List Msg → Except LLMErr LLMRes) (base : List Msg) :
    (check_finish_reason none =
      .error (.service "LLM response missing finish_reason" "missing_finish_reason")) ∧
    (check_finish_reason (some "") =
      .error (.service "LLM response missing finish_reason" "missing_finish_reason")) ∧
    (r ≠ "" → (check_finish_reason (some r) = .ok () ↔ (r = "stop" ∨ r = "tool_calls"))) ∧
    ((check_finish_reason fr = .ok ()) ∨
      ∃ m s, check_finish_reason fr = .error (.service m s)) ∧
    (∀ j, 1 ≤ j → j ≤ MAX_API_RETRY → (∃ res, run j base = .ok res) →
      (∀ k, 1 ≤ k → k < j → ∃ e, run k base = .error e) →
      llm_get_result run base = run j base) ∧
    ((∀ k, 1 ≤ k → k ≤ MAX_API_RETRY → ∃ e, run k base = .error e) →
      llm_get_result run base = run MAX_API_RETRY base) ∧
    ((∀ k, 1 ≤ k → k ≤ MAX_API_RETRY → run k base = run' k base) →
      llm_get_result run base = llm_get_result run' base) := by
  refine ⟨rfl, rfl, ?_, ?_, ?_, ?_, ?_⟩
  · intro hr
    rw [check_finish_reason]
    simp only [hr, if_false]
    by_cases hs : r = "stop" ∨ r = "tool_calls"
    · simp [hs]
    · simp [hs]
  · match fr with
    | none => exact Or.inr ⟨_, _, rfl⟩
    | some r' =>
      rw [check_finish_reason]
      by_cases h0 : r' = ""
      · simp only [h0, if_true]
        exact Or.inr ⟨_, _, rfl⟩
      · simp only [h0, if_false]
        by_cases hs : r' = "stop" ∨ r' = "tool_calls"
        · simp only [hs, if_true]
          exact Or.inl trivial
        · simp only [hs, if_false]
          exact Or.inr ⟨_, _, rfl⟩
  · intro j h1 h2 hok hfail
    have := llmRetryGo_first_success run base MAX_API_RETRY 0 j h1 h2
      (by simpa using hok) (by simpa using hfail)
    simpa [llm_get_result] using this
  · intro hfail
    have := llmRetryGo_all_fail run base MAX_API_RETRY 0 (by norm_num [MAX_API_RETRY])
      (by simpa using hfail)
    simpa [llm_get_result] using this
  · intro hagree
    have := llmRetryGo_congr run run' base MAX_API_RETRY 0 (by simpa using hagree)
    simpa [llm_get_result] using this

/-- A concrete attempt function: attempt 1 fails with a truncated stream,
every later attempt succeeds. -/
def sampleRun : Nat → List Msg → Except LLMErr LLMRes := fun i msgs =>
  if i = 1 then .error (.service "LLM response interrupted, finish_reason=length" "length")
  else .ok ("final answer", "reasoning", msgs ++ [⟨"assistant", "final answer"⟩])

/-- Witness for C6: with `sampleRun` the call retries once and returns
attempt 2's result. -/
theorem C6_llm_retry_witness :
    ((1 : Nat) ≤ 2) ∧ ((2 : Nat) ≤ MAX_API_RETRY) ∧
    (∃ res, sampleRun 2 [⟨"user", "hi"⟩] = .ok res) ∧
    (∀ k, 1 ≤ k → k < 2 → ∃ e, sampleRun k [⟨"user", "hi"⟩] = .error e) ∧
    llm_get_result sampleRun [⟨"user", "hi"⟩] = sampleRun 2 [⟨"user", "hi"⟩] :=
  ⟨by decide, by decide, ⟨_, rfl⟩,
   fun k hk1 hk2 => by
     have hk : k = 1 := by omega
     subst hk
     exact ⟨_, rfl⟩,
   (C6_llm_retry none "stop" sampleRun sampleRun [⟨"user", "hi"⟩]).2.2.2.2.1
     2 (by decide) (by decide) ⟨_, rfl⟩
     (fun k hk1 hk2 => by
       have hk : k = 1 := by omega
       subst hk
       exact ⟨_, rfl⟩)⟩

/-- Values held by the persistent Python tool environment: module objects
(whose name matters for the matplotlib/pylab ban), the sandboxed builtins
dict that `run_python` installs, and ordinary values. -/
inductive PyVal where
  | moduleVal (name : String)
  | blockedBuiltins
  | plain (tag : Nat)
deriving DecidableEq

/-- The persistent `env` dict of `run_python`, as an association list
with the dict's first-match lookup. -/
abbrev PyEnv := List (String × PyVal)

/-- Dictionary lookup `env[k]`. -/
def envGet : PyEnv → String → Option PyVal
  | [], _ => none
  | (k, v) :: rest, key => if k = key then some v else envGet rest key

/-- Dictionary assignment `env[k] = v` (in-place update or append). -/
def envSet : PyEnv → String → PyVal → PyEnv
  | [], key, v => [(key, v)]
  | (k, w) :: rest, key, v =>
    if k = key then (k, v) :: rest else (k, w) :: envSet rest key v

/-- Dictionary key list `list(env.keys())`. -/
def envKeys (env : PyEnv) : List String := env.map Prod.fst

/-- Python `module_name.split(".", 1)[0]`. -/
def moduleRoot (name : String) : List Char := name.toList.takeWhile (· ≠ '.')

/-- Model of `_is_banned_module_name` (src/llms/tools.py): the root
package is matplotlib or pylab. -/
def is_banned_module_name (name : String) : Bool :=
  moduleRoot name = "matplotlib".toList || moduleRoot name = "pylab".toList

/-- Whether a value is a banned module object (`isinstance(v, ModuleType)
and _is_banned_module_name(v.__name__)`). -/
def pyValBanned : PyVal → Bool
  | .moduleVal n => is_banned_module_name n
  | _ => false

/-- Step 2 of `run_python`'s setup: pop banned module objects cached in
`env`. -/
def purgeBannedEnv (env : PyEnv) : PyEnv :=
  env.filter fun p => ¬ pyValBanned p.2

/-- The `env` mutations `run_python` performs before taking its snapshot:
purge banned modules, then install the copied builtins dict with the
blocked `__import__` under the `__builtins__` key.  The snapshot
`env_snapshot = dict(env)` is taken right after. -/
def runPythonSetup (env : PyEnv) : PyEnv :=
  envSet (purgeBannedEnv env) "__builtins__" .blockedBuiltins

/-- The `except TimeoutError` rollback of `run_python`: drop keys not in
the snapshot, then restore every snapshot binding. -/
def rollbackEnv (snapshot mid : PyEnv) : PyEnv :=
  snapshot.foldl (fun e p => envSet e p.1 p.2)
    (mid.filter fun p => decide (p.1 ∈ envKeys snapshot))

/-- Model of `run_python` on the timeout path (src/llms/tools.py lines
127-202): setup, snapshot, arbitrary user-code effect on the dict
(`userExec`), timeout, rollback; returns the final env, the captured
stdout and `error="timeout"`. -/
def run_python_timeout (env : PyEnv) (userExec : PyEnv → PyEnv) (buf : String) :
    PyEnv × String × Option String :=
  let snapshot := runPythonSetup env
  let mid := userExec snapshot
  (rollbackEnv snapshot mid, buf, some "timeout")

/-- Lookup after assignment. -/
theorem envGet_envSet (e : PyEnv) (k k' : String) (v : PyVal) :
    envGet (envSet e k v) k' = if k = k' then some v else envGet e k' := by
  induction e with
  | nil =>
    by_cases h : k = k' <;> simp [envSet, envGet, h]
  | cons p rest ih =>
    obtain ⟨k0, w⟩ := p
    by_cases h0 : k0 = k
    · subst h0
      by_cases h : k0 = k' <;> simp [envSet, envGet, h]
    · by_cases h : k0 = k'
      · subst h
        have hkk : ¬ (k = k0) := fun hh => h0 hh.symm
        simp [envSet, envGet, h0, hkk]
      · simp [envSet, envGet, h0, h, ih]

/-- A key is absent exactly when lookup fails. -/
theorem envGet_none_iff (e : PyEnv) (k : String) :
    envGet e k = none ↔ k ∉ envKeys e := by
  induction e with
  | nil => simp [envGet, envKeys]
  | cons p rest ih =>
    obtain ⟨k0, w⟩ := p
    by_cases h : k0 = k
    · subst h
      simp [envGet, envKeys]
    · simp [envGet, envKeys, h, ih, Ne.symm h]

/-- Lookup after re-assigning every binding of a duplicate-free snapshot:
snapshot bindings win, other keys fall through to the accumulator. -/
theorem envGet_foldl_set (snap : PyEnv) :
    ∀ (acc : PyEnv) (k : String), (envKeys snap).Nodup →
      envGet (snap.foldl (fun e p => envSet e p.1 p.2) acc) k =
        match envGet snap k with
        | some v => some v
        | none => envGet acc k := by
  induction snap with
  | nil => intro acc k _; simp [envGet]
  | cons p rest ih =>
    intro acc k hnd
    obtain ⟨k0, v0⟩ := p
    have hcons : k0 ∉ envKeys rest ∧ (envKeys rest).Nodup := by
      have h := hnd
      simp only [envKeys, List.map_cons, List.nodup_cons] at h
      exact h
    have hnd' : (envKeys rest).Nodup := hcons.2
    have hk0 : k0 ∉ envKeys rest := hcons.1
    rw [List.foldl_cons, ih (envSet acc k0 v0) k hnd']
    by_cases h : k0 = k
    · subst h
      have : envGet rest k0 = none := (envGet_none_iff rest k0).mpr hk0
      simp [envGet, this, envGet_envSet]
    · simp [envGet, h]
      match hres : envGet rest k with
      | some v => simp
      | none => simp [envGet_envSet, h]

/-- Keys outside the snapshot key set are gone after the rollback's
filter. -/
theorem envGet_filter_keys_none (mid : PyEnv) (keys : List String) (k : String)
    (hk : k ∉ keys) :
    envGet (mid.filter fun p => decide (p.1 ∈ keys)) k = none := by
  induction mid with
  | nil => simp [envGet]
  | cons p rest ih =>
    obtain ⟨k0, v0⟩ := p
    rw [List.filter_cons]
    by_cases hmem : k0 ∈ keys
    · rw [if_pos (by simpa using hmem)]
      have hne : k0 ≠ k := fun h => hk (h ▸ hmem)
      simpa [envGet, hne] using ih
    · rw [if_neg (by simpa using hmem)]
      exact ih

/-- The rollback restores the environment to the snapshot at every key,
whatever the user code did to the dict. -/
theorem rollbackEnv_restores (snap mid : PyEnv) (hnd : (envKeys snap).Nodup)
    (k : String) : envGet (rollbackEnv snap mid) k = envGet snap k := by
  rw [rollbackEnv, envGet_foldl_set snap _ k hnd]
  match hres : envGet snap k with
  | some v => simp
  | none =>
    have hk : k ∉ envKeys snap := (envGet_none_iff snap k).mp hres
    exact envGet_filter_keys_none mid (envKeys snap) k hk

/-- Assignment either keeps the key list or appends the new key. -/
theorem envKeys_envSet (e : PyEnv) (k : String) (v : PyVal) :
    envKeys (envSet e k v) = if k ∈ envKeys e then envKeys e else envKeys e ++ [k] := by
  induction e with
  | nil => simp [envSet, envKeys]
  | cons p rest ih =>
    obtain ⟨k0, w⟩ := p
    by_cases h : k0 = k
    · subst h
      simp [envSet, envKeys]
    · have hne : ¬ (k = k0) := fun hh => h hh.symm
      simp only [envSet, h, if_false, envKeys, List.map_cons] at ih ⊢
      rw [ih]
      by_cases hmem : k ∈ List.map Prod.fst rest
      · simp [hmem, hne]
      · simp [hmem, hne]

/-- Assignment preserves duplicate-freeness of the key list. -/
theorem envKeys_envSet_nodup (e : PyEnv) (k : String) (v : PyVal)
    (hnd : (envKeys e).Nodup) : (envKeys (envSet e k v)).Nodup := by
  rw [envKeys_envSet]
  by_cases hmem : k ∈ envKeys e
  · simpa [hmem] using hnd
  · simp only [hmem, if_false]
    simp [List.nodup_append, hnd, hmem]

/-- Filtering keeps a sublist of the keys. -/
theorem envKeys_filter_sublist (e : PyEnv) (p : String × PyVal → Bool) :
    (envKeys (e.filter p)).Sublist (envKeys e) := by
  simpa [envKeys] using List.Sublist.map Prod.fst (List.filter_sublist e)

/-- The snapshot of a well-formed dict is well-formed. -/
theorem runPythonSetup_nodup (env : PyEnv) (hnd : (envKeys env).Nodup) :
    (envKeys (runPythonSetup env)).Nodup := by
  apply envKeys_envSet_nodup
  exact ((envKeys_filter_sublist env _).nodup hnd)

/-- Lookup through a filter on a duplicate-free dict. -/
theorem envGet_filter_of_nodup (e : PyEnv) (p : String × PyVal → Bool)
    (hnd : (envKeys e).Nodup) (k : String) :
    envGet (e.filter p) k =
      match envGet e k with
      | some v => if p (k, v) then some v else none
      | none => none := by
  induction e with
  | nil => simp [envGet]
  | cons q rest ih =>
    obtain ⟨k0, v0⟩ := q
    have hcons : k0 ∉ envKeys rest ∧ (envKeys rest).Nodup := by
      have h := hnd
      simp only [envKeys, List.map_cons, List.nodup_cons] at h
      exact h
    by_cases h : k0 = k
    · subst h
      rw [List.filter_cons]
      cases hp : p (k0, v0) with
      | true => simp [hp, envGet]
      | false =>
        simp only [hp, Bool.false_eq_true, if_false]
        have hnone : envGet rest k0 = none := (envGet_none_iff rest k0).mpr hcons.1
        rw [ih hcons.2]
        simp [envGet, hnone, hp]
    · rw [List.filter_cons]
      cases hp : p (k0, v0) with
      | true => simp [hp, envGet, h, ih hcons.2]
      | false =>
        simp only [hp, Bool.false_eq_true, if_false]
        rw [ih hcons.2]
        simp [envGet, h]

/-- Lookup in the snapshot: `__builtins__` holds the sandboxed builtins,
banned module bindings are gone, everything else is the pre-call value. -/
theorem runPythonSetup_get (env : PyEnv) (hnd : (envKeys env).Nodup) (k : String) :
    envGet (runPythonSetup env) k =
      if k = "__builtins__" then some .blockedBuiltins
      else
        match envGet env k with
        | some v => if pyValBanned v then none else some v
        | none => none := by
  rw [runPythonSetup, envGet_envSet]
  by_cases h : k = "__builtins__"
  · simp [h]
  · have hne : ¬ ("__builtins__" = k) := fun hh => h hh.symm
    simp only [hne, if_false, h]
    rw [purgeBannedEnv, envGet_filter_of_nodup env _ hnd]
    match hres : envGet env k with
    | some v => cases hb : pyValBanned v <;> simp [hb]
    | none => simp

/-- C7 counterexample: on an initially empty environment, a timed-out
call leaves the key `__builtins__` behind (the sandbox injects it before
taking the snapshot the rollback restores), so not every key added during
the call is removed. -/
theorem C7_run_python_timeout_counterexample :
    (run_python_timeout [] (fun e => e) "").2.2 = some "timeout" ∧
    envGet [] "__builtins__" = none ∧
    envGet (run_python_timeout [] (fun e => e) "").1 "__builtins__" =
      some .blockedBuiltins := by
  refine ⟨rfl, rfl, ?_⟩
  decide

/-- C7 amended: a timed-out `run_python` returns `error="timeout"` and
restores the environment at the key level to the post-setup snapshot:
every key the executed code added is removed and every key it overwrote
or deleted is restored to its pre-call binding; the exceptions are the
`__builtins__` key, which keeps the sandboxed builtins installed by the
call, and bindings whose pre-call value was a banned matplotlib/pylab
module object, which stay removed. -/
theorem C7_run_python_timeout_amended (env : PyEnv) (userExec : PyEnv → PyEnv)
    (buf : String) (hnd : (envKeys env).Nodup) :
    ((run_python_timeout env userExec buf).2.2 = some "timeout") ∧
    (∀ k, envGet (run_python_timeout env userExec buf).1 k =
        if k = "__builtins__" then some .blockedBuiltins
        else
          match envGet env k with
          | some v => if pyValBanned v then none else some v
          | none => none) := by
  refine ⟨rfl, ?_⟩
  intro k
  have hsnod : (envKeys (runPythonSetup env)).Nodup := runPythonSetup_nodup env hnd
  have hroll := rollbackEnv_restores (runPythonSetup env)
    (userExec (runPythonSetup env)) hsnod k
  have hsetup := runPythonSetup_get env hnd k
  calc envGet (run_python_timeout env userExec buf).1 k
      = envGet (runPythonSetup env) k := hroll
    _ = _ := hsetup

/-- A pre-call environment with a plain binding and a cached banned
module. -/
def sampleEnv : PyEnv :=
  [("x", .plain 1), ("m", .moduleVal "matplotlib.pyplot")]

/-- User code that overwrites `x` and adds `y` before timing out. -/
def sampleUserExec : PyEnv → PyEnv := fun e =>
  envSet (envSet e "x" (.plain 99)) "y" (.plain 2)

/-- Witness for the amended C7 on the concrete environment. -/
theorem C7_run_python_timeout_amended_witness :
    (envKeys sampleEnv).Nodup ∧
    (((run_python_timeout sampleEnv sampleUserExec "out").2.2 = some "timeout") ∧
     (∀ k, envGet (run_python_timeout sampleEnv sampleUserExec "out").1 k =
        if k = "__builtins__" then some .blockedBuiltins
        else
          match envGet sampleEnv k with
          | some v => if pyValBanned v then none else some v
          | none => none)) :=
  ⟨by decide,
   C7_run_python_timeout_amended sampleEnv sampleUserExec "out" (by decide)⟩

/-- Model of `apply_proof_anchor_edit` (src/llms/tools.py lines 426-458),
the implementation of the `modify_proof` tool: reject blank or over-long
markers, locate the first occurrence of `begin_marker` and the first
occurrence of `end_marker` after it, and replace the inclusive span with
`proof_replacement`; exceptions are caught and returned as an error
string with the lemma unchanged. -/
def apply_proof_anchor_edit (lem : LemmaM)
    (beginMarker endMarker proofReplacement : String) : LemmaM × String :=
  if pyStripIsEmpty beginMarker ∨ pyStripIsEmpty endMarker then
    (lem, "[error]\nBoth begin_marker and end_marker must be provided")
  else if 100 < beginMarker.toList.length ∨ 100 < endMarker.toList.length then
    (lem, "[error]\nMarkers must be 100 characters or fewer")
  else
    let proofCs := lem.proof.toList
    match pyFind proofCs beginMarker.toList with
    | none => (lem, "[error]\nbegin_marker not found in proof text")
    | some startIdx =>
      match pyFindFrom proofCs endMarker.toList
          (startIdx + beginMarker.toList.length) with
      | none => (lem, "[error]\nend_marker not found after begin_marker")
      | some endHit =>
        let endIdx := endHit + endMarker.toList.length
        let newProof := String.mk (proofCs.take startIdx) ++ proofReplacement ++
          String.mk (proofCs.drop endIdx)
        let lem' := { lem with proof := newProof, applyDiffError := none }
        (lem', "Updated successfully:\n<conjecture>\n" ++ lem'.statement ++
          "</conjecture>\n<proof>" ++ lem'.proof ++ "</proof>")

/-- A lemma whose proof contains the whitespace-only marker used by the
C8 counterexample. -/
def wsLemma : LemmaM :=
  ⟨"stmt", "a b c", [], "pending", none, none, false, 0, [], false, none⟩

/-- C8 counterexample: the single-space markers are non-empty, within the
length bound, and found in the required positions of the proof, yet
`modify_proof` leaves the proof unchanged and returns an error, because
the code rejects markers that are blank after `strip()`. -/
theorem C8_modify_proof_counterexample :
    (" " ≠ "") ∧ ((" " : String).toList.length ≤ 100) ∧
    (pyFind ("a b c".toList) (" ".toList) = some 1) ∧
    (pyFindFrom ("a b c".toList) (" ".toList) (1 + (" " : String).toList.length) =
      some 3) ∧
    apply_proof_anchor_edit wsLemma " " " " "X" =
      (wsLemma, "[error]\nBoth begin_marker and end_marker must be provided") := by
  refine ⟨by decide, by decide, by decide, by decide, by decide⟩

/-- C8 amended: for markers containing a non-whitespace character and at
most 100 characters long, `modify_proof` replaces the inclusive span from
the first occurrence of `begin_marker` to the first occurrence of
`end_marker` after it with the replacement (clearing `apply_diff_error`);
when a marker is blank, over 100 characters, or not found in the required
position, the lemma is unchanged and an error string is returned. -/
theorem C8_modify_proof_amended (lem : LemmaM) (b e r : String)
    (hb : pyStripIsEmpty b = false) (he : pyStripIsEmpty e = false)
    (hlb : b.toList.length ≤ 100) (hle : e.toList.length ≤ 100) :
    (∀ i j, pyFind lem.proof.toList b.toList = some i →
      pyFindFrom lem.proof.toList e.toList (i + b.toList.length) = some j →
      apply_proof_anchor_edit lem b e r =
        ({ lem with
            proof := String.mk (lem.proof.toList.take i) ++ r ++
              String.mk (lem.proof.toList.drop (j + e.toList.length)),
            applyDiffError := none },
         "Updated successfully:\n<conjecture>\n" ++ lem.statement ++
           "</conjecture>\n<proof>" ++
           (String.mk (lem.proof.toList.take i) ++ r ++
             String.mk (lem.proof.toList.drop (j + e.toList.length))) ++
           "</proof>")) ∧
    (pyFind lem.proof.toList b.toList = none →
      apply_proof_anchor_edit lem b e r =
        (lem, "[error]\nbegin_marker not found in proof text")) ∧
    (∀ i, pyFind lem.proof.toList b.toList = some i →
      pyFindFrom lem.proof.toList e.toList (i + b.toList.length) = none →
      apply_proof_anchor_edit lem b e r =
        (lem, "[error]\nend_marker not found after begin_marker")) ∧
    (∀ (lem2 : LemmaM) (b2 e2 r2 : String),
      (pyStripIsEmpty b2 = true ∨ pyStripIsEmpty e2 = true) →
      apply_proof_anchor_edit lem2 b2 e2 r2 =
        (lem2, "[error]\nBoth begin_marker and end_marker must be provided")) ∧
    (∀ (lem2 : LemmaM) (b2 e2 r2 : String),
      pyStripIsEmpty b2 = false → pyStripIsEmpty e2 = false →
      (100 < b2.toList.length ∨ 100 < e2.toList.length) →
      apply_proof_anchor_edit lem2 b2 e2 r2 =
        (lem2, "[error]\nMarkers must be 100 characters or fewer")) := by
  have hcond : ¬ (pyStripIsEmpty b = true ∨ pyStripIsEmpty e = true) := by
    simp [hb, he]
  have hlen : ¬ (100 < b.toList.length ∨ 100 < e.toList.length) := by
    omega
  refine ⟨?_, ?_, ?_, ?_, ?_⟩
  · intro i j hfb hfe
    rw [apply_proof_anchor_edit, if_neg hcond, if_neg hlen]
    simp only [hfb, hfe]
  · intro hfb
    rw [apply_proof_anchor_edit, if_neg hcond, if_neg hlen]
    simp only [hfb]
  · intro i hfb hfe
    rw [apply_proof_anchor_edit, if_neg hcond, if_neg hlen]
    simp only [hfb, hfe]
  · intro lem2 b2 e2 r2 hblank
    rw [apply_proof_anchor_edit, if_pos hblank]
  · intro lem2 b2 e2 r2 hb2 he2 hlong
    have hcond2 : ¬ (pyStripIsEmpty b2 = true ∨ pyStripIsEmpty e2 = true) := by
      simp [hb2, he2]
    rw [apply_proof_anchor_edit, if_neg hcond2, if_pos hlong]

/-- A concrete lemma for the C8 witness. -/
def anchorLemma : LemmaM :=
  ⟨"stmt", "abcdef", [], "pending", none, none, false, 0, [], false, none⟩

/-- Witness for the amended C8: replacing the span from `bc` to `e` in
`abcdef` with `XY`. -/
theorem C8_modify_proof_amended_witness :
    (pyStripIsEmpty "bc" = false) ∧ (pyStripIsEmpty "e" = false) ∧
    (("bc" : String).toList.length ≤ 100) ∧ (("e" : String).toList.length ≤ 100) ∧
    (pyFind anchorLemma.proof.toList ("bc" : String).toList = some 1) ∧
    (pyFindFrom anchorLemma.proof.toList ("e" : String).toList
      (1 + ("bc" : String).toList.length) = some 4) ∧
    apply_proof_anchor_edit anchorLemma "bc" "e" "XY" =
      ({ anchorLemma with
          proof := String.mk (anchorLemma.proof.toList.take 1) ++ "XY" ++
            String.mk (anchorLemma.proof.toList.drop (4 + ("e" : String).toList.length)),
          applyDiffError := none },
       "Updated successfully:\n<conjecture>\n" ++ anchorLemma.statement ++
         "</conjecture>\n<proof>" ++
         (String.mk (anchorLemma.proof.toList.take 1) ++ "XY" ++
           String.mk (anchorLemma.proof.toList.drop (4 + ("e" : String).toList.length))) ++
         "</proof>") :=
  ⟨by decide, by decide, by decide, by decide, by decide, by decide,
   (C8_modify_proof_amended anchorLemma "bc" "e" "XY" (by decide) (by decide)
     (by decide) (by decide)).1 1 4 (by decide) (by decide)⟩

/-- Shape of `Refiner.prep`'s result (src/agents/refiner.py): the quota
tuple `(VERIFIER_EXAUSTED, current_lemma_id)`, the error tuple, or the
normal 4-tuple (only the lemma id is consumed by post). -/
inductive RPrep where
  | exhaustedR (lemmaId : Option Nat)
  | errorR
  | normalR (lemmaId : Nat)
deriving DecidableEq

/-- Shape of `Refiner.exec`'s result: a 2-tuple (caught by the
`len(exec_res) < 3` check) or a 3-tuple whose first component post never
inspects. -/
inductive RExec where
  | shortR (code : String)
  | tripleR (code : String) (isValid : Bool) (nextLemma : Option LemmaM)
deriving DecidableEq

/-- Model of the legacy `Refiner.post` (src/agents/refiner.py lines
78-156).  On the quota-exhausted path it marks the lemma rejected and
then, unless the lemma was already refunded, sets `solver_round_refunded`
and attempts to refund the solver quota by reading
`AlphaSolveConfig.SOLVER_ROUND_NUM` - an attribute that does not exist in
src/config/agent_config.py, so the refund statement raises
AttributeError out of post. -/
def refiner_post (shared : SharedCtx) (prepRes : Option RPrep)
    (execRes : Option RExec) : Except String String × SharedCtx :=
  match prepRes, execRes with
  | none, _ => (.ok EXIT_ON_ERROR, shared)
  | some _, none => (.ok EXIT_ON_ERROR, shared)
  | some (.exhaustedR lemmaId?), some _ =>
    match lemmaId? with
    | some lid =>
      if h : lid < shared.lemmas.length then
        let lem := shared.lemmas.get ⟨lid, h⟩
        let lem1 := { lem with status := "rejected" }
        if lem1.solverRoundRefunded then
          (.ok EXIT_ON_EXAUSTED,
           { shared with lemmas := shared.lemmas.set lid lem1 })
        else
          let lem2 := { lem1 with solverRoundRefunded := true }
          (.error "AttributeError: type object AlphaSolveConfig has no attribute SOLVER_ROUND_NUM",
           { shared with lemmas := shared.lemmas.set lid lem2 })
      else (.ok EXIT_ON_EXAUSTED, shared)
    | none => (.ok EXIT_ON_EXAUSTED, shared)
  | some .errorR, some (.shortR _) => (.ok EXIT_ON_ERROR, shared)
  | some .errorR, some (.tripleR _ _ _) =>
    (.error "TypeError: list indices must be integers or slices, not NoneType",
     { shared with
        verifyRefineRoundRemaining := shared.verifyRefineRoundRemaining - 1 })
  | some (.normalR _), some (.shortR _) => (.ok EXIT_ON_ERROR, shared)
  | some (.normalR lid), some (.tripleR _ isValid next) =>
    let shared1 := { shared with
      verifyRefineRoundRemaining := shared.verifyRefineRoundRemaining - 1 }
    if isValid then
      match next with
      | some nl =>
        if lid < shared1.lemmas.length then
          (.ok REFINE_SUCCESS,
           { shared1 with lemmas := shared1.lemmas.set lid nl,
                          currentLemmaId := some lid })
        else (.error "IndexError: list assignment index out of range", shared1)
      | none => (.ok EXIT_ON_ERROR, shared1)
    else
      if h : lid < shared1.lemmas.length then
        let lem := shared1.lemmas.get ⟨lid, h⟩
        let lemR := { lem with status := "rejected" }
        (.ok CONJECTURE_WRONG,
         { shared1 with lemmas := shared1.lemmas.set lid lemR })
      else (.error "IndexError: list index out of range", shared1)

/-- C9 counterexample: the legacy `Refiner.post` on the exhausted path
does not leave the rest of the shared state unchanged and does not return
EXIT_ON_EXAUSTED: it flips the lemma's `solver_round_refunded` flag and
then raises while attempting the solver-quota refund. -/
theorem C9_refiner_refund_counterexample :
    ((refiner_post sampleShared (some (.exhaustedR (some 0)))
        (some (.tripleR VERIFIER_EXAUSTED true none))).1 ≠ .ok EXIT_ON_EXAUSTED) ∧
    (((refiner_post sampleShared (some (.exhaustedR (some 0)))
        (some (.tripleR VERIFIER_EXAUSTED true none))).2.lemmas.get? 0).map
        LemmaM.solverRoundRefunded = some true) ∧
    (((refiner_post sampleShared (some (.exhaustedR (some 0)))
        (some (.tripleR VERIFIER_EXAUSTED true none))).2.lemmas.get? 0).map
        LemmaM.status = some "rejected") ∧
    ((sampleShared.lemmas.get? 0).map LemmaM.solverRoundRefunded = some false) := by
  refine ⟨by decide, by decide, by decide, by decide⟩

/-- Shape of `WithHistoryRefiner.exec`'s result: the exhausted pair or
`(NORMAL, updated_messages)`. -/
inductive WExec where
  | exhaustedWE
  | normalWE (messages : List Msg)
deriving DecidableEq

/-- Shape of `WithHistoryRefiner.prep`'s result. -/
inductive WPrep where
  | exhaustedW (lemmaId : Nat)
  | errorW
  | normalW
deriving DecidableEq

/-- Model of `WithHistoryRefiner.post` (src/agents/with_history_refiner.py
lines 109-152): on the exhausted path mark the current lemma rejected and
return EXIT_ON_EXAUSTED with no other change; on the normal path set the
status to pending and store the updated history.  (The exhausted exec
shape under a non-exhausted prep cannot arise in the wiring; Python would
store None as history_messages there.) -/
def with_history_refiner_post (shared : SharedCtx) (prepRes : Option WPrep)
    (execRes : Option WExec) : Except String String × SharedCtx :=
  match prepRes, execRes with
  | none, _ => (.ok EXIT_ON_ERROR, shared)
  | some _, none => (.ok EXIT_ON_ERROR, shared)
  | some (.exhaustedW _), some _ =>
    match shared.currentLemmaId with
    | some lid =>
      if h : lid < shared.lemmas.length then
        let lem := shared.lemmas.get ⟨lid, h⟩
        let lemR := { lem with status := "rejected" }
        (.ok EXIT_ON_EXAUSTED,
         { shared with lemmas := shared.lemmas.set lid lemR })
      else (.ok EXIT_ON_EXAUSTED, shared)
    | none => (.ok EXIT_ON_EXAUSTED, shared)
  | some _, some .exhaustedWE =>
    (.error "unreachable shape: exhausted exec result under a non-exhausted prep",
     shared)
  | some _, some (.normalWE messages) =>
    match shared.currentLemmaId with
    | none => (.error "TypeError: list indices must be integers or slices, not NoneType", shared)
    | some lid =>
      if h : lid < shared.lemmas.length then
        let lem := shared.lemmas.get ⟨lid, h⟩
        let lemP := { lem with status := "pending", historyMessages := messages }
        (.ok REFINE_SUCCESS,
         { shared with lemmas := shared.lemmas.set lid lemP })
      else (.error "IndexError: list index out of range", shared)

/-- C9 amended: on the verify-refine-exhausted path the canonical
`WithHistoryRefiner.post` marks the current lemma rejected and returns
EXIT_ON_EXAUSTED while leaving all other shared state unchanged - in
particular the solver quota and both round counters are untouched, the
lemma's refund flag is untouched, and every other lemma is unchanged.
The legacy `Refiner.post` of refiner.py instead attempts a solver-quota
refund on this path (see the counterexample). -/
theorem C9_with_history_refiner_post_amended (shared : SharedCtx) (lid : Nat)
    (lem : LemmaM) (execRes : WExec)
    (hcur : shared.currentLemmaId = some lid)
    (hget : shared.lemmas.get? lid = some lem) :
    (with_history_refiner_post shared (some (.exhaustedW lid)) (some execRes) =
      (.ok EXIT_ON_EXAUSTED,
       { shared with
          lemmas := shared.lemmas.set lid { lem with status := "rejected" } })) ∧
    ((with_history_refiner_post shared (some (.exhaustedW lid))
        (some execRes)).2.solverRoundRemaining = shared.solverRoundRemaining) ∧
    ((with_history_refiner_post shared (some (.exhaustedW lid))
        (some execRes)).2.verifyRefineRoundRemaining =
          shared.verifyRefineRoundRemaining) ∧
    (((with_history_refiner_post shared (some (.exhaustedW lid))
        (some execRes)).2.lemmas.get? lid).map LemmaM.solverRoundRefunded =
          some lem.solverRoundRefunded) ∧
    (∀ j, j ≠ lid →
      (with_history_refiner_post shared (some (.exhaustedW lid))
        (some execRes)).2.lemmas.get? j = shared.lemmas.get? j) := by
  have hlt : lid < shared.lemmas.length := (List.get?_eq_some.mp hget).1
  have hgetF : shared.lemmas.get ⟨lid, hlt⟩ = lem := by
    have := List.get?_eq_get hlt
    rw [hget] at this
    exact (Option.some.injEq _ _).mp this.symm
  have hmain : with_history_refiner_post shared (some (.exhaustedW lid)) (some execRes) =
      (.ok EXIT_ON_EXAUSTED,
       { shared with
          lemmas := shared.lemmas.set lid { lem with status := "rejected" } }) := by
    rw [with_history_refiner_post]
    simp only [hcur, hgetF, dif_pos hlt]
  refine ⟨hmain, by rw [hmain], by rw [hmain], ?_, ?_⟩
  · rw [hmain]
    simp only
    rw [List.get?_eq_getElem?, List.getElem?_set_self (by simpa using hlt)]
    simp
  · intro j hj
    rw [hmain]
    simp only
    rw [List.get?_eq_getElem?, List.get?_eq_getElem?,
      List.getElem?_set_ne (fun h => hj h.symm)]

/-- Witness for the amended C9 on the concrete one-lemma state. -/
theorem C9_with_history_refiner_post_witness :
    (sampleShared.currentLemmaId = some 0) ∧
    (sampleShared.lemmas.get? 0 = some samplePendingLemma) ∧
    ((with_history_refiner_post sampleShared (some (.exhaustedW 0))
        (some (.normalWE []))).1 = .ok EXIT_ON_EXAUSTED) ∧
    ((with_history_refiner_post sampleShared (some (.exhaustedW 0))
        (some (.normalWE []))).2.solverRoundRemaining =
      sampleShared.solverRoundRemaining) :=
  ⟨by decide, by decide,
   by
     have h := (C9_with_history_refiner_post_amended sampleShared 0
       samplePendingLemma (.normalWE []) (by decide) (by decide)).1
     rw [h],
   (C9_with_history_refiner_post_amended sampleShared 0 samplePendingLemma
     (.normalWE []) (by decide) (by decide)).2.1⟩
